import Mathlib

/-!
Verification of the soft-body particle simulator in src/simulation.js.

The JavaScript core is shallowly embedded over the real numbers.  The
mutable object graph of the source (particles referenced directly from
constraints) is modelled as a flat list of particle records plus
constraints storing integer indices into that list; every in-place
mutation becomes an explicit state-passing function that returns the
updated list.  JavaScript float arithmetic is modelled by exact real
arithmetic.
-/

noncomputable section

namespace PepperSim

/-- A point mass of the lattice (class Particle in the source). -/
structure Particle where
  positionX : ℝ
  positionY : ℝ
  previousX : ℝ
  previousY : ℝ
  accelX : ℝ
  accelY : ℝ
  pinned : Bool

/-- A transient radial force source (object literal pushed by addPulse). -/
structure Pulse where
  x : ℝ
  y : ℝ
  strength : ℝ
  sigma : ℝ
  createdAt : ℝ

/-- A distance constraint between two particles, held by index into the
particle list (class DistanceConstraint in the source). -/
structure DistanceConstraint where
  a : ℕ
  b : ℕ
  rest : ℝ
  stiffness : ℝ
  breakThresholdBase : ℝ
  weakUntilTs : ℝ
  weakThreshold : Option ℝ
  broken : Bool

/-- The SETTINGS configuration object of the source, as a structure so the
theorems can quantify over configurations. -/
structure Settings where
  gridCols : ℤ
  gridRows : ℤ
  constraintIterations : ℕ
  structuralStiffness : ℝ
  shearStiffness : ℝ
  damping : ℝ
  jitterAcceleration : ℝ
  gravityY : ℝ
  pulseStrength : ℝ
  pulseSigma : ℝ
  pulseHalfLifeMs : ℝ
  borderPadding : ℝ
  breakThreshold : ℝ
  minWeakThreshold : ℝ
  clickTearRadius : ℝ
  clickInnerBreakRadius : ℝ
  weakenFactor : ℝ
  weakenDurationMs : ℝ
  tearImpulse : ℝ
  maxBreaksPerStep : ℕ

/-- The concrete SETTINGS values of the source file. -/
def SETTINGS : Settings where
  gridCols := 52
  gridRows := 34
  constraintIterations := 3
  structuralStiffness := 0.35
  shearStiffness := 0.25
  damping := 0.0035
  jitterAcceleration := 3.0
  gravityY := 0.0
  pulseStrength := 3000
  pulseSigma := 90
  pulseHalfLifeMs := 650
  borderPadding := 24
  breakThreshold := 1.8
  minWeakThreshold := 1.18
  clickTearRadius := 60
  clickInnerBreakRadius := 24
  weakenFactor := 0.85
  weakenDurationMs := 450
  tearImpulse := 36
  maxBreaksPerStep := 200

/-- Out-of-range index accesses never happen in the source (constraints
always reference live particles); the default keeps the embedding total. -/
def defaultParticle : Particle :=
  { positionX := 0, positionY := 0, previousX := 0, previousY := 0
    accelX := 0, accelY := 0, pinned := false }

/-- Read the particle at index i. -/
def pGet (ps : List Particle) (i : ℕ) : Particle :=
  ps.getD i defaultParticle

/-- Apply f to the element at index i, the functional image of an in-place
field mutation on one array element. -/
def updAt {α : Type} : List α → ℕ → (α → α) → List α
  | [], _, _ => []
  | x :: xs, 0, f => f x :: xs
  | x :: xs, n + 1, f => x :: updAt xs n f

/-- The clamp helper of the source. -/
def clamp (v lo hi : ℝ) : ℝ :=
  if v < lo then lo else if hi < v then hi else v

/-- Math.hypot(dx, dy). -/
def jsHypot (dx dy : ℝ) : ℝ :=
  Real.sqrt (dx * dx + dy * dy)

/-- The JavaScript expression x || e for a number x: e when x is zero. -/
def jsOr (x e : ℝ) : ℝ :=
  if x = 0 then e else x

/-- Particle.addForce. -/
def addForce (p : Particle) (ax ay : ℝ) : Particle :=
  { p with accelX := p.accelX + ax, accelY := p.accelY + ay }

/-- Particle.verletStep. -/
def verletStep (p : Particle) (dtSeconds damping : ℝ) : Particle :=
  if p.pinned then
    { p with previousX := p.positionX, previousY := p.positionY
             accelX := 0, accelY := 0 }
  else
    let nextX := p.positionX + (p.positionX - p.previousX) * (1 - damping)
        + p.accelX * dtSeconds * dtSeconds
    let nextY := p.positionY + (p.positionY - p.previousY) * (1 - damping)
        + p.accelY * dtSeconds * dtSeconds
    { positionX := nextX, positionY := nextY
      previousX := p.positionX, previousY := p.positionY
      accelX := 0, accelY := 0, pinned := p.pinned }

/-- The DistanceConstraint constructor. -/
def mkConstraint (S : Settings) (a b : ℕ) (restLength stiffness : ℝ) :
    DistanceConstraint :=
  { a := a, b := b, rest := restLength, stiffness := stiffness
    breakThresholdBase := S.breakThreshold
    weakUntilTs := 0, weakThreshold := none, broken := false }

/-- DistanceConstraint.getCurrentBreakThreshold. -/
def getCurrentBreakThreshold (c : DistanceConstraint) (nowTs : ℝ) : ℝ :=
  match c.weakThreshold with
  | some w => if nowTs ≤ c.weakUntilTs then w else c.breakThresholdBase
  | none => c.breakThresholdBase

/-- DistanceConstraint.markWeak. -/
def markWeak (S : Settings) (c : DistanceConstraint)
    (tempThreshold untilTs : ℝ) : DistanceConstraint :=
  let clamped := max tempThreshold S.minWeakThreshold
  let wt :=
    match c.weakThreshold with
    | none => some clamped
    | some w => if clamped < w then some clamped else some w
  { c with weakThreshold := wt, weakUntilTs := max c.weakUntilTs untilTs }

/-- DistanceConstraint.forceBreak, acting on the particle list the
constraint indexes into. -/
def forceBreak (S : Settings) (ps : List Particle) (c : DistanceConstraint) :
    List Particle × DistanceConstraint :=
  if c.broken then (ps, c)
  else
    let c2 := { c with broken := true }
    let pa := pGet ps c.a
    let pb := pGet ps c.b
    let dx := pb.positionX - pa.positionX
    let dy := pb.positionY - pa.positionY
    let dist := jsOr (jsHypot dx dy) 1e-6
    let nx := dx / dist
    let ny := dy / dist
    let push := S.tearImpulse
    if pa.pinned = false ∧ pb.pinned = false then
      let ps1 := updAt ps c.a fun p =>
        { p with positionX := p.positionX - nx * push * 0.5
                 positionY := p.positionY - ny * 0.5 * push }
      let ps2 := updAt ps1 c.b fun p =>
        { p with positionX := p.positionX + nx * push * 0.5
                 positionY := p.positionY + ny * 0.5 * push }
      (ps2, c2)
    else if pa.pinned = true ∧ pb.pinned = false then
      (updAt ps c.b fun p =>
        { p with positionX := p.positionX + nx * push
                 positionY := p.positionY + ny * push }, c2)
    else if pa.pinned = false ∧ pb.pinned = true then
      (updAt ps c.a fun p =>
        { p with positionX := p.positionX - nx * push
                 positionY := p.positionY - ny * push }, c2)
    else (ps, c2)

/-- DistanceConstraint.satisfy: returns the updated particle list, the
updated constraint, and the boolean the method returns. -/
def satisfy (S : Settings) (ps : List Particle) (c : DistanceConstraint)
    (nowTs : ℝ) : List Particle × DistanceConstraint × Bool :=
  if c.broken then (ps, c, false)
  else
    let pa := pGet ps c.a
    let pb := pGet ps c.b
    let dx := pb.positionX - pa.positionX
    let dy := pb.positionY - pa.positionY
    let dist := jsOr (jsHypot dx dy) 1e-6
    let threshold := getCurrentBreakThreshold c nowTs
    if c.rest * threshold < dist then
      let r := forceBreak S ps c
      (r.1, r.2, false)
    else
      let diff := (dist - c.rest) / dist
      let k := c.stiffness
      let moveAX := dx * 0.5 * k * diff
      let moveAY := dy * 0.5 * k * diff
      if pa.pinned = false ∧ pb.pinned = false then
        let ps1 := updAt ps c.a fun p =>
          { p with positionX := p.positionX + moveAX * 1
                   positionY := p.positionY + moveAY * 1 }
        let ps2 := updAt ps1 c.b fun p =>
          { p with positionX := p.positionX - moveAX * 1
                   positionY := p.positionY - moveAY * 1 }
        (ps2, c, true)
      else if pa.pinned = true ∧ pb.pinned = false then
        (updAt ps c.b fun p =>
          { p with positionX := p.positionX - dx * k * diff
                   positionY := p.positionY - dy * k * diff }, c, true)
      else if pa.pinned = false ∧ pb.pinned = true then
        (updAt ps c.a fun p =>
          { p with positionX := p.positionX + dx * k * diff
                   positionY := p.positionY + dy * k * diff }, c, true)
      else (ps, c, true)

/-- The Particle constructor: previous position jittered by randRange,
with the sampled pair supplied explicitly (injectable randomness). -/
def mkParticle (x y : ℝ) (pinned : Bool) (r : ℝ × ℝ) : Particle :=
  { positionX := x, positionY := y
    previousX := x + r.1, previousY := y + r.2
    accelX := 0, accelY := 0, pinned := pinned }

/-- buildGrid: particle lattice plus structural and shear constraints.
rng supplies the randRange samples for each particle in creation order. -/
def buildGrid (S : Settings) (width height : ℝ) (rng : ℕ → ℝ × ℝ) :
    List Particle × List DistanceConstraint :=
  let pad := S.borderPadding
  let gridWidth := width - pad * 2
  let gridHeight := height - pad * 2
  let cols := S.gridCols
  let rows := S.gridRows
  let cellW := gridWidth / ((cols : ℝ) - 1)
  let cellH := gridHeight / ((rows : ℝ) - 1)
  let idx := fun (i j : ℕ) => j * cols.toNat + i
  let particles := (List.range rows.toNat).flatMap fun (j : ℕ) =>
    (List.range cols.toNat).map fun (i : ℕ) =>
      mkParticle (pad + (i : ℝ) * cellW) (pad + (j : ℝ) * cellH)
        (decide (i = 0 ∨ j = 0 ∨ (i : ℤ) = cols - 1 ∨ (j : ℤ) = rows - 1))
        (rng (idx i j))
  let constraints := (List.range rows.toNat).flatMap fun (j : ℕ) =>
    (List.range cols.toNat).flatMap fun (i : ℕ) =>
      (if (i : ℤ) < cols - 1 then
        [mkConstraint S (idx i j) (idx (i + 1) j) cellW S.structuralStiffness]
      else []) ++
      (if (j : ℤ) < rows - 1 then
        [mkConstraint S (idx i j) (idx i (j + 1)) cellH S.structuralStiffness]
      else []) ++
      (if (i : ℤ) < cols - 1 ∧ (j : ℤ) < rows - 1 then
        [mkConstraint S (idx i j) (idx (i + 1) (j + 1))
          (jsHypot cellW cellH) S.shearStiffness]
      else []) ++
      (if 0 < i ∧ (j : ℤ) < rows - 1 then
        [mkConstraint S (idx i j) (idx (i - 1) (j + 1))
          (jsHypot cellW cellH) S.shearStiffness]
      else [])
  (particles, constraints)

/-- The acceleration one pulse contributes to one particle inside the
pulse loop of stepSimulation. -/
def pulseAccel (S : Settings) (pu : Pulse) (now : ℝ) (p : Particle) :
    ℝ × ℝ :=
  let halfLife := S.pulseHalfLifeMs
  let decayCoef := Real.log 2 / halfLife
  let age := now - pu.createdAt
  let decay := Real.exp (-decayCoef * age)
  let base := pu.strength * decay
  let twoSigma2 := 2 * pu.sigma * pu.sigma
  let dx := p.positionX - pu.x
  let dy := p.positionY - pu.y
  let r2 := dx * dx + dy * dy
  let falloff := Real.exp (-r2 / twoSigma2)
  let r := Real.sqrt r2 + 1e-6
  ((dx / r) * base * falloff, (dy / r) * base * falloff)

/-- The gravity and jitter force loop of stepSimulation; jit supplies the
randRange samples per particle index. -/
def applyBaseForces (S : Settings) (jit : ℕ → ℝ × ℝ) :
    ℕ → List Particle → List Particle
  | _, [] => []
  | i, p :: rest =>
    (if p.pinned then p
     else
       let p1 := if S.gravityY ≠ 0 then addForce p 0 S.gravityY else p
       addForce p1 (jit i).1 (jit i).2) :: applyBaseForces S jit (i + 1) rest

/-- One pulse applied to every free particle. -/
def applyPulse (S : Settings) (pu : Pulse) (now : ℝ)
    (ps : List Particle) : List Particle :=
  ps.map fun p =>
    if p.pinned then p
    else
      let acc := pulseAccel S pu now p
      addForce p acc.1 acc.2

/-- The pulse force loop of stepSimulation. -/
def applyPulses (S : Settings) (now : ℝ) (pulses : List Pulse)
    (ps : List Particle) : List Particle :=
  pulses.foldl (fun acc pu => applyPulse S pu now acc) ps

/-- The integration loop of stepSimulation: verletStep followed by the
bounds clamp, for every particle. -/
def integrateAll (S : Settings) (w h dtSec : ℝ) (ps : List Particle) :
    List Particle :=
  ps.map fun p =>
    let q := verletStep p dtSec S.damping
    { q with
      positionX := clamp q.positionX S.borderPadding (w - S.borderPadding)
      positionY := clamp q.positionY S.borderPadding (h - S.borderPadding) }

/-- One relaxation pass: the inner i loop of stepSimulation, with the
break counter and the per-pass safety cap. -/
def runPass (S : Settings) (nowTs : ℝ) :
    List Particle → List DistanceConstraint → ℕ →
    List Particle × List DistanceConstraint × ℕ
  | ps, [], breaks => (ps, [], breaks)
  | ps, c :: rest, breaks =>
    if c.broken then
      let r := runPass S nowTs ps rest breaks
      (r.1, c :: r.2.1, r.2.2)
    else
      let s := satisfy S ps c nowTs
      if s.2.2 then
        let r := runPass S nowTs s.1 rest breaks
        (r.1, s.2.1 :: r.2.1, r.2.2)
      else
        if S.maxBreaksPerStep ≤ breaks + 1 then (s.1, s.2.1 :: rest, breaks + 1)
        else
          let r := runPass S nowTs s.1 rest (breaks + 1)
          (r.1, s.2.1 :: r.2.1, r.2.2)

/-- The k loop of stepSimulation: constraintIterations relaxation passes,
each with a fresh break counter. -/
def relaxLoop (S : Settings) (nowTs : ℝ) :
    ℕ → List Particle → List DistanceConstraint →
    List Particle × List DistanceConstraint
  | 0, ps, cs => (ps, cs)
  | k + 1, ps, cs =>
    let r := runPass S nowTs ps cs 0
    relaxLoop S nowTs k r.1 r.2.1

/-- The mutable module-level simulation state. -/
structure SimState where
  particles : List Particle
  constraints : List DistanceConstraint
  pulses : List Pulse

/-- stepSimulation: forces, pulse culling and forces, integration with
bounds clamp, relaxation passes, removal of broken constraints. -/
def stepSimulation (S : Settings) (w h dtMs : ℝ) (jit : ℕ → ℝ × ℝ)
    (now nowTs : ℝ) (st : SimState) : SimState :=
  let _dtSec := dtMs / 1000
  let ps0 := applyBaseForces S jit 0 st.particles
  let pulses2 := st.pulses.filter fun pu =>
    now - pu.createdAt < S.pulseHalfLifeMs * 6
  let ps1 := applyPulses S now pulses2 ps0
  let ps2 := integrateAll S w h _dtSec ps1
  let r := relaxLoop S nowTs S.constraintIterations ps2 st.constraints
  let cs2 := if r.2.length ≠ 0 then r.2.filter (fun c => !c.broken) else r.2
  { particles := r.1, constraints := cs2, pulses := pulses2 }

/-- Per-step external inputs of one animate tick: dtMs, the jitter
samples, and the two performance.now() reads. -/
structure StepArgs where
  dtMs : ℝ
  jit : ℕ → ℝ × ℝ
  now : ℝ
  nowTs : ℝ

/-- A whole run: any number of simulation steps with arbitrary per-step
inputs. -/
def foldSteps (S : Settings) (w h : ℝ) (l : List StepArgs)
    (st : SimState) : SimState :=
  l.foldl (fun acc a => stepSimulation S w h a.dtMs a.jit a.now a.nowTs acc) st

/-- Number of broken constraints in a list. -/
def countBroken (cs : List DistanceConstraint) : ℕ :=
  cs.countP fun c => c.broken

/-- The concrete particle used by the C2 witness. -/
def wParticleC2 : Particle :=
  { defaultParticle with
    positionX := 100, positionY := 50, previousX := 99, previousY := 50 }

/-- The concrete weakened constraint used by the C10 witness. -/
def wConstraintC10 : DistanceConstraint :=
  { mkConstraint SETTINGS 0 1 10 0.35 with
    weakThreshold := some 1.3, weakUntilTs := 400 }

/-- The particle pair used by the C1 witness, at distance 5. -/
def wParticlesC1 : List Particle :=
  [defaultParticle, { defaultParticle with positionX := 3, positionY := 4 }]

/-- Default constraint for total indexed access on constraint lists. -/
def defaultConstraint : DistanceConstraint := mkConstraint SETTINGS 0 0 0 0

/-- Particle pair at distance 5 used by the C6 witness. -/
def wParticlesC6 : List Particle :=
  [defaultParticle, { defaultParticle with positionX := 3, positionY := 4 }]

/-- Constraint with rest length 4 and stiffness one half used by the C6
witness. -/
def wConstraintC6 : DistanceConstraint := mkConstraint SETTINGS 0 1 4 0.5

/-- The pinned particle used by the C4 witness. -/
def wParticleC4 : Particle :=
  { defaultParticle with positionX := 100, positionY := 100, pinned := true }

/-- The one-step state used by the C4 witness. -/
def wStateC4 : SimState :=
  { particles := [wParticleC4], constraints := [], pulses := [] }

/-- Free particle sitting exactly at the pulse origin. -/
def wParticleC7 : Particle :=
  { defaultParticle with
    positionX := 100, positionY := 100, previousX := 100, previousY := 100 }

/-- Pulse injected exactly at the particle position. -/
def wPulseC7 : Pulse :=
  { x := 100, y := 100, strength := SETTINGS.pulseStrength
    sigma := SETTINGS.pulseSigma, createdAt := 0 }

/-- State with the pulse present. -/
def wStateC7 : SimState :=
  { particles := [wParticleC7], constraints := [], pulses := [wPulseC7] }

/-- The same state with no pulse. -/
def wStateC7noPulse : SimState :=
  { particles := [wParticleC7], constraints := [], pulses := [] }

/-- SETTINGS with zero grid dimensions. -/
def wSettingsC8 : Settings :=
  { SETTINGS with gridCols := 0, gridRows := 0 }

/-! Access lemmas for the list-update primitives. -/

theorem updAt_length {α : Type} (l : List α) (j : ℕ) (f : α → α) :
    (updAt l j f).length = l.length := by
  induction l generalizing j with
  | nil => rfl
  | cons x xs ih =>
    cases j with
    | zero => rfl
    | succ n => simpa [updAt] using ih n

theorem getD_updAt_ne {α : Type} (l : List α) (i j : ℕ) (f : α → α) (d : α)
    (h : i ≠ j) : (updAt l j f).getD i d = l.getD i d := by
  induction l generalizing i j with
  | nil => rfl
  | cons x xs ih =>
    cases j with
    | zero =>
      cases i with
      | zero => exact absurd rfl h
      | succ m => simp [updAt]
    | succ n =>
      cases i with
      | zero => simp [updAt]
      | succ m =>
        simpa [updAt] using ih m n (fun hh => h (by omega))

theorem getD_updAt_self {α : Type} (l : List α) (j : ℕ) (f : α → α) (d : α)
    (h : j < l.length) : (updAt l j f).getD j d = f (l.getD j d) := by
  induction l generalizing j with
  | nil => simp at h
  | cons x xs ih =>
    cases j with
    | zero => rfl
    | succ n =>
      simpa [updAt] using ih n (by simpa using h)

theorem pGet_map (f : Particle → Particle) (ps : List Particle) (i : ℕ)
    (hi : i < ps.length) : pGet (ps.map f) i = f (pGet ps i) := by
  induction ps generalizing i with
  | nil => simp at hi
  | cons p rest ih =>
    cases i with
    | zero => rfl
    | succ n => simpa [pGet] using ih n (by simpa using hi)

/-- The constraint returned by forceBreak is always flagged broken. -/
theorem forceBreak_snd_broken (S : Settings) (ps : List Particle)
    (c : DistanceConstraint) : ((forceBreak S ps c).2).broken = true := by
  rw [forceBreak]
  split
  · next hc => exact hc
  · dsimp only
    split
    · rfl
    · split
      · rfl
      · split
        · rfl
        · rfl

/-- Claim C9: forceBreak is idempotent: called on an already broken
constraint it returns immediately, changing no particle positions, so the
tear separation impulse is applied at most once per constraint. -/
theorem forceBreak_idempotent (S : Settings) (ps : List Particle)
    (c : DistanceConstraint) :
    (c.broken = true → forceBreak S ps c = (ps, c)) ∧
    ((forceBreak S ps c).2).broken = true ∧
    forceBreak S (forceBreak S ps c).1 (forceBreak S ps c).2 =
      forceBreak S ps c := by
  have hbroken := forceBreak_snd_broken S ps c
  refine ⟨fun hc => by simp [forceBreak, hc], hbroken, ?_⟩
  conv_lhs => rw [forceBreak]
  simp [hbroken]

/-- Witness for C9 at a concrete broken constraint. -/
theorem forceBreak_idempotent_witness :
    ({ mkConstraint SETTINGS 0 1 10 1 with broken := true }.broken = true) ∧
    forceBreak SETTINGS [] { mkConstraint SETTINGS 0 1 10 1 with broken := true }
      = ([], { mkConstraint SETTINGS 0 1 10 1 with broken := true }) := by
  refine ⟨rfl, ?_⟩
  exact (forceBreak_idempotent SETTINGS []
    { mkConstraint SETTINGS 0 1 10 1 with broken := true }).1 rfl

/-- Claim C2: integration advances every non-pinned particle by the
Verlet rule, records the old position as previous, zeroes acceleration;
pinned particles only reset previous and acceleration; every resulting
position is clamped into the border-padding inset rectangle. -/
theorem integration_step_spec (S : Settings) (w h dtSec : ℝ)
    (ps : List Particle) (i : ℕ) (hi : i < ps.length) :
    ((pGet ps i).pinned = false →
      pGet (integrateAll S w h dtSec ps) i =
        { positionX := clamp ((pGet ps i).positionX
              + ((pGet ps i).positionX - (pGet ps i).previousX) * (1 - S.damping)
              + (pGet ps i).accelX * dtSec * dtSec)
            S.borderPadding (w - S.borderPadding)
          positionY := clamp ((pGet ps i).positionY
              + ((pGet ps i).positionY - (pGet ps i).previousY) * (1 - S.damping)
              + (pGet ps i).accelY * dtSec * dtSec)
            S.borderPadding (h - S.borderPadding)
          previousX := (pGet ps i).positionX
          previousY := (pGet ps i).positionY
          accelX := 0, accelY := 0, pinned := false }) ∧
    ((pGet ps i).pinned = true →
      pGet (integrateAll S w h dtSec ps) i =
        { positionX := clamp (pGet ps i).positionX
            S.borderPadding (w - S.borderPadding)
          positionY := clamp (pGet ps i).positionY
            S.borderPadding (h - S.borderPadding)
          previousX := (pGet ps i).positionX
          previousY := (pGet ps i).positionY
          accelX := 0, accelY := 0, pinned := true }) := by
  rw [integrateAll, pGet_map _ _ _ hi]
  constructor
  · intro hp
    simp [verletStep, hp]
  · intro hp
    simp [verletStep, hp]

/-- Witness for C2 on a concrete one-particle state. -/
theorem integration_step_spec_witness :
    (0 < ([wParticleC2] : List Particle).length) ∧
    ((pGet [wParticleC2] 0).pinned = false →
      pGet (integrateAll SETTINGS 640 480 1 [wParticleC2]) 0 =
        { positionX := clamp ((pGet [wParticleC2] 0).positionX
              + ((pGet [wParticleC2] 0).positionX
                - (pGet [wParticleC2] 0).previousX) * (1 - SETTINGS.damping)
              + (pGet [wParticleC2] 0).accelX * 1 * 1)
            SETTINGS.borderPadding (640 - SETTINGS.borderPadding)
          positionY := clamp ((pGet [wParticleC2] 0).positionY
              + ((pGet [wParticleC2] 0).positionY
                - (pGet [wParticleC2] 0).previousY) * (1 - SETTINGS.damping)
              + (pGet [wParticleC2] 0).accelY * 1 * 1)
            SETTINGS.borderPadding (480 - SETTINGS.borderPadding)
          previousX := (pGet [wParticleC2] 0).positionX
          previousY := (pGet [wParticleC2] 0).positionY
          accelX := 0, accelY := 0, pinned := false }) := by
  refine ⟨by decide, ?_⟩
  exact (integration_step_spec SETTINGS 640 480 1 [wParticleC2] 0 (by decide)).1

/-! Facts about markWeak and its iteration. -/

theorem markWeak_weakUntil (S : Settings) (c : DistanceConstraint)
    (t e : ℝ) : (markWeak S c t e).weakUntilTs = max c.weakUntilTs e := rfl

theorem markWeak_threshold_none (S : Settings) (c : DistanceConstraint)
    (t e : ℝ) (h : c.weakThreshold = none) :
    (markWeak S c t e).weakThreshold = some (max t S.minWeakThreshold) := by
  simp [markWeak, h]

theorem markWeak_threshold_some (S : Settings) (c : DistanceConstraint)
    (t e w : ℝ) (h : c.weakThreshold = some w) :
    (markWeak S c t e).weakThreshold =
      some (min (max t S.minWeakThreshold) w) := by
  by_cases hlt : max t S.minWeakThreshold < w
  · have hh : (markWeak S c t e).weakThreshold =
        some (max t S.minWeakThreshold) := by
      simp [markWeak, h, hlt]
    rw [hh, min_eq_left hlt.le]
  · have hh : (markWeak S c t e).weakThreshold = some w := by
      simp [markWeak, h, hlt]
    rw [hh, min_eq_right (not_lt.mp hlt)]

/-- The stored expiry after a sequence of markWeak calls dominates the
initial expiry and every proposed expiry, and is one of them. -/
theorem foldMarkWeak_until (S : Settings) (calls : List (ℝ × ℝ)) :
    ∀ c : DistanceConstraint,
      c.weakUntilTs ≤
        (calls.foldl (fun acc p => markWeak S acc p.1 p.2) c).weakUntilTs ∧
      (∀ p ∈ calls,
        p.2 ≤ (calls.foldl (fun acc p => markWeak S acc p.1 p.2) c).weakUntilTs) ∧
      ((calls.foldl (fun acc p => markWeak S acc p.1 p.2) c).weakUntilTs
          = c.weakUntilTs ∨
        ∃ p ∈ calls,
          (calls.foldl (fun acc p => markWeak S acc p.1 p.2) c).weakUntilTs = p.2) := by
  induction calls with
  | nil => exact fun c => ⟨le_refl _, by simp, Or.inl rfl⟩
  | cons q rest ih =>
    intro c
    simp only [List.foldl_cons]
    obtain ⟨h1, h2, h3⟩ := ih (markWeak S c q.1 q.2)
    have hq : (markWeak S c q.1 q.2).weakUntilTs = max c.weakUntilTs q.2 :=
      markWeak_weakUntil S c q.1 q.2
    refine ⟨le_trans (by rw [hq]; exact le_max_left _ _) h1, ?_, ?_⟩
    · intro p hp
      rcases List.mem_cons.mp hp with hh | ht
      · subst hh; exact le_trans (by rw [hq]; exact le_max_right _ _) h1
      · exact h2 p ht
    · rcases h3 with he | ⟨p, hp, he⟩
      · rw [he, hq]
        rcases max_choice c.weakUntilTs q.2 with hm | hm
        · exact Or.inl hm
        · exact Or.inr ⟨q, List.mem_cons_self _ _, hm⟩
      · exact Or.inr ⟨p, List.mem_cons_of_mem _ hp, he⟩

/-- The stored weak threshold after a sequence of markWeak calls on a
constraint that already stores one is the running minimum of the stored
value and the floor-clamped proposals. -/
theorem foldMarkWeak_threshold (S : Settings) (calls : List (ℝ × ℝ)) :
    ∀ (c : DistanceConstraint) (w0 : ℝ), c.weakThreshold = some w0 →
      ∃ w, (calls.foldl (fun acc p => markWeak S acc p.1 p.2) c).weakThreshold
          = some w ∧
        w ≤ w0 ∧
        (∀ p ∈ calls, w ≤ max p.1 S.minWeakThreshold) ∧
        (w = w0 ∨ ∃ p ∈ calls, w = max p.1 S.minWeakThreshold) := by
  induction calls with
  | nil => exact fun c w0 h => ⟨w0, h, le_refl _, by simp, Or.inl rfl⟩
  | cons q rest ih =>
    intro c w0 h
    have hq : (markWeak S c q.1 q.2).weakThreshold =
        some (min (max q.1 S.minWeakThreshold) w0) :=
      markWeak_threshold_some S c q.1 q.2 w0 h
    obtain ⟨w, hw, hle, hall, hmem⟩ := ih (markWeak S c q.1 q.2) _ hq
    refine ⟨w, hw, le_trans hle (min_le_right _ _), ?_, ?_⟩
    · intro p hp
      rcases List.mem_cons.mp hp with hh | ht
      · subst hh; exact le_trans hle (min_le_left _ _)
      · exact hall p ht
    · rcases hmem with he | ⟨p, hp, he⟩
      · rw [he]
        rcases min_choice (max q.1 S.minWeakThreshold) w0 with hm | hm
        · exact Or.inr ⟨q, List.mem_cons_self _ _, hm⟩
        · exact Or.inl hm
      · exact Or.inr ⟨p, List.mem_cons_of_mem _ hp, he⟩

/-- Claim C3: over any sequence of markWeak calls on a fresh constraint,
the stored weak threshold is the minimum of the floor-clamped proposals
(hence never below the floor) and the stored expiry is the maximum of the
proposed expiries; in particular two calls with thresholds t1 < t2 and
expiries e1 > e2, in either order, leave threshold t1 and expiry e1. -/
theorem markWeak_composition (S : Settings) (a b : ℕ) (restL k : ℝ)
    (calls : List (ℝ × ℝ)) (hne : calls ≠ [])
    (hexp : ∀ p ∈ calls, 0 ≤ p.2) :
    (∃ w, (calls.foldl (fun acc p => markWeak S acc p.1 p.2)
        (mkConstraint S a b restL k)).weakThreshold = some w ∧
      S.minWeakThreshold ≤ w ∧
      (∀ p ∈ calls, w ≤ max p.1 S.minWeakThreshold) ∧
      (∃ p ∈ calls, w = max p.1 S.minWeakThreshold)) ∧
    ((∀ p ∈ calls, p.2 ≤ (calls.foldl (fun acc p => markWeak S acc p.1 p.2)
        (mkConstraint S a b restL k)).weakUntilTs) ∧
      (∃ p ∈ calls, (calls.foldl (fun acc p => markWeak S acc p.1 p.2)
        (mkConstraint S a b restL k)).weakUntilTs = p.2)) ∧
    (∀ t1 t2 e1 e2, S.minWeakThreshold ≤ t1 → t1 < t2 → 0 ≤ e2 → e2 < e1 →
      (markWeak S (markWeak S (mkConstraint S a b restL k) t1 e1) t2 e2).weakThreshold
          = some t1 ∧
      (markWeak S (markWeak S (mkConstraint S a b restL k) t1 e1) t2 e2).weakUntilTs
          = e1 ∧
      (markWeak S (markWeak S (mkConstraint S a b restL k) t2 e2) t1 e1).weakThreshold
          = some t1 ∧
      (markWeak S (markWeak S (mkConstraint S a b restL k) t2 e2) t1 e1).weakUntilTs
          = e1 ∧
      (∀ now, now ≤ e1 →
        getCurrentBreakThreshold
          (markWeak S (markWeak S (mkConstraint S a b restL k) t1 e1) t2 e2) now
          = t1)) := by
  obtain ⟨q, rest, rfl⟩ := List.exists_cons_of_ne_nil hne
  have hfresh : (mkConstraint S a b restL k).weakThreshold = none := rfl
  have hq0 : (markWeak S (mkConstraint S a b restL k) q.1 q.2).weakThreshold =
      some (max q.1 S.minWeakThreshold) :=
    markWeak_threshold_none S _ q.1 q.2 hfresh
  refine ⟨?_, ?_, ?_⟩
  · obtain ⟨w, hw, hle, hall, hmem⟩ :=
      foldMarkWeak_threshold S rest (markWeak S (mkConstraint S a b restL k) q.1 q.2)
        _ hq0
    refine ⟨w, by simpa using hw, ?_, ?_, ?_⟩
    · rcases hmem with he | ⟨p, hp, he⟩
      · rw [he]; exact le_max_right _ _
      · rw [he]; exact le_max_right _ _
    · intro p hp
      rcases List.mem_cons.mp hp with hh | ht
      · subst hh; exact hle
      · exact hall p ht
    · rcases hmem with he | ⟨p, hp, he⟩
      · exact ⟨q, List.mem_cons_self _ _, he⟩
      · exact ⟨p, List.mem_cons_of_mem _ hp, he⟩
  · obtain ⟨h1, h2, h3⟩ :=
      foldMarkWeak_until S rest (markWeak S (mkConstraint S a b restL k) q.1 q.2)
    have hqu : (markWeak S (mkConstraint S a b restL k) q.1 q.2).weakUntilTs = q.2 := by
      rw [markWeak_weakUntil]
      exact max_eq_right (hexp q (List.mem_cons_self _ _))
    constructor
    · intro p hp
      rcases List.mem_cons.mp hp with hh | ht
      · subst hh
        simpa using le_trans (le_of_eq hqu.symm) h1
      · simpa using h2 p ht
    · rcases h3 with he | ⟨p, hp, he⟩
      · exact ⟨q, List.mem_cons_self _ _, by simpa [hqu] using he⟩
      · exact ⟨p, List.mem_cons_of_mem _ hp, by simpa using he⟩
  · intro t1 t2 e1 e2 hf h12 he2 he12
    have ht1 : max t1 S.minWeakThreshold = t1 := max_eq_left hf
    have ht2 : max t2 S.minWeakThreshold = t2 :=
      max_eq_left (le_trans hf h12.le)
    have hA : (markWeak S (mkConstraint S a b restL k) t1 e1).weakThreshold
        = some t1 := by rw [markWeak_threshold_none S _ _ _ hfresh, ht1]
    have hAu : (markWeak S (mkConstraint S a b restL k) t1 e1).weakUntilTs = e1 := by
      rw [markWeak_weakUntil]
      exact max_eq_right (le_trans he2 he12.le)
    have hB : (markWeak S (mkConstraint S a b restL k) t2 e2).weakThreshold
        = some t2 := by rw [markWeak_threshold_none S _ _ _ hfresh, ht2]
    have hBu : (markWeak S (mkConstraint S a b restL k) t2 e2).weakUntilTs = e2 := by
      rw [markWeak_weakUntil]
      exact max_eq_right he2
    have hAB : (markWeak S (markWeak S (mkConstraint S a b restL k) t1 e1) t2 e2).weakThreshold
        = some t1 := by
      rw [markWeak_threshold_some S _ _ _ _ hA, ht2]
      exact congrArg some (min_eq_right h12.le)
    have hABu : (markWeak S (markWeak S (mkConstraint S a b restL k) t1 e1) t2 e2).weakUntilTs
        = e1 := by
      rw [markWeak_weakUntil, hAu]
      exact max_eq_left he12.le
    refine ⟨hAB, hABu, ?_, ?_, ?_⟩
    · rw [markWeak_threshold_some S _ _ _ _ hB, ht1]
      exact congrArg some (min_eq_left h12.le)
    · rw [markWeak_weakUntil, hBu]
      exact max_eq_right he12.le
    · intro now hnow
      rw [getCurrentBreakThreshold]
      rw [hAB]
      simp [hABu, hnow]

/-- Witness for C3: two concrete overlapping weaken calls. -/
theorem markWeak_composition_witness :
    (([((1.3 : ℝ), (500 : ℝ)), ((1.5 : ℝ), (200 : ℝ))] :
        List (ℝ × ℝ)) ≠ []) ∧
    (∀ p ∈ ([((1.3 : ℝ), (500 : ℝ)), ((1.5 : ℝ), (200 : ℝ))] :
        List (ℝ × ℝ)), 0 ≤ p.2) ∧
    (∃ w, (([((1.3 : ℝ), (500 : ℝ)), ((1.5 : ℝ), (200 : ℝ))] :
        List (ℝ × ℝ)).foldl (fun acc p => markWeak SETTINGS acc p.1 p.2)
        (mkConstraint SETTINGS 0 1 10 0.35)).weakThreshold = some w ∧
      SETTINGS.minWeakThreshold ≤ w ∧
      (∀ p ∈ ([((1.3 : ℝ), (500 : ℝ)), ((1.5 : ℝ), (200 : ℝ))] :
          List (ℝ × ℝ)), w ≤ max p.1 SETTINGS.minWeakThreshold) ∧
      (∃ p ∈ ([((1.3 : ℝ), (500 : ℝ)), ((1.5 : ℝ), (200 : ℝ))] :
          List (ℝ × ℝ)), w = max p.1 SETTINGS.minWeakThreshold)) := by
  have hexp : ∀ p ∈ ([((1.3 : ℝ), (500 : ℝ)), ((1.5 : ℝ), (200 : ℝ))] :
      List (ℝ × ℝ)), 0 ≤ p.2 := by
    intro p hp
    rcases List.mem_cons.mp hp with h | hp
    · rw [h]; norm_num
    · rcases List.mem_cons.mp hp with h | hp
      · rw [h]; norm_num
      · simp at hp
  refine ⟨by simp, hexp, ?_⟩
  exact (markWeak_composition SETTINGS 0 1 10 0.35 _ (by simp) hexp).1

/-- Claim C10: the stored weak threshold is never cleared at expiry (the
base threshold is merely used for evaluation), it is non-increasing under
markWeak, and a later markWeak proposing a higher threshold keeps the
stored lower value while extending the expiry, reactivating it. -/
theorem weakThreshold_persists (S : Settings) :
    (∀ (c : DistanceConstraint) (now : ℝ), c.weakUntilTs < now →
      getCurrentBreakThreshold c now = c.breakThresholdBase) ∧
    (∀ (c : DistanceConstraint) (t e w : ℝ), c.weakThreshold = some w →
      ∃ w2, (markWeak S c t e).weakThreshold = some w2 ∧ w2 ≤ w) ∧
    (∀ (c : DistanceConstraint) (t e w : ℝ), c.weakThreshold = some w →
      w ≤ max t S.minWeakThreshold →
      (markWeak S c t e).weakThreshold = some w ∧
      (markWeak S c t e).weakUntilTs = max c.weakUntilTs e ∧
      (∀ now, now ≤ max c.weakUntilTs e →
        getCurrentBreakThreshold (markWeak S c t e) now = w)) := by
  refine ⟨?_, ?_, ?_⟩
  · intro c now hlt
    rw [getCurrentBreakThreshold]
    cases h : c.weakThreshold with
    | none => rfl
    | some w => simp [not_le.mpr hlt]
  · intro c t e w h
    refine ⟨min (max t S.minWeakThreshold) w,
      markWeak_threshold_some S c t e w h, min_le_right _ _⟩
  · intro c t e w h hle
    have hth : (markWeak S c t e).weakThreshold = some w := by
      rw [markWeak_threshold_some S c t e w h]
      exact congrArg some (min_eq_right hle)
    refine ⟨hth, markWeak_weakUntil S c t e, ?_⟩
    intro now hnow
    rw [getCurrentBreakThreshold, hth]
    simp [markWeak_weakUntil, hnow]

/-- Witness for C10: a later markWeak with a higher proposal keeps the
stored lower threshold and extends the expiry. -/
theorem weakThreshold_persists_witness :
    (wConstraintC10.weakThreshold = some 1.3) ∧
    ((1.3 : ℝ) ≤ max 1.5 SETTINGS.minWeakThreshold) ∧
    ((markWeak SETTINGS wConstraintC10 1.5 900).weakThreshold = some 1.3 ∧
      (markWeak SETTINGS wConstraintC10 1.5 900).weakUntilTs =
        max wConstraintC10.weakUntilTs 900 ∧
      (∀ now, now ≤ max wConstraintC10.weakUntilTs 900 →
        getCurrentBreakThreshold (markWeak SETTINGS wConstraintC10 1.5 900) now
          = 1.3)) := by
  have h1 : wConstraintC10.weakThreshold = some 1.3 := rfl
  have h2 : (1.3 : ℝ) ≤ max 1.5 SETTINGS.minWeakThreshold :=
    le_trans (by norm_num) (le_max_left _ _)
  exact ⟨h1, h2, (weakThreshold_persists SETTINGS).2.2 wConstraintC10 1.5 900 1.3 h1 h2⟩

/-- Claim C1: a non-broken constraint evaluated by the solver breaks if
and only if the distance between its endpoints exceeds restLength times
the effective break threshold (the weakened threshold while now is within
the weaken expiry, the base threshold otherwise), and the effective
threshold never drops below the configured floor. -/
theorem break_threshold_iff (S : Settings) (ps : List Particle)
    (c : DistanceConstraint) (nowTs : ℝ)
    (hb : c.broken = false)
    (hfloor1 : 1 ≤ S.minWeakThreshold)
    (hbase : S.minWeakThreshold ≤ c.breakThresholdBase)
    (hweak : ∀ w, c.weakThreshold = some w → S.minWeakThreshold ≤ w)
    (hrest : (1e-6 : ℝ) ≤ c.rest) :
    S.minWeakThreshold ≤ getCurrentBreakThreshold c nowTs ∧
    (((satisfy S ps c nowTs).2.1.broken = true) ↔
      c.rest * getCurrentBreakThreshold c nowTs <
        jsHypot ((pGet ps c.b).positionX - (pGet ps c.a).positionX)
          ((pGet ps c.b).positionY - (pGet ps c.a).positionY)) := by
  set T := getCurrentBreakThreshold c nowTs with hT
  have hTfloor : S.minWeakThreshold ≤ T := by
    rw [hT, getCurrentBreakThreshold]
    cases hw : c.weakThreshold with
    | none => exact hbase
    | some w =>
      by_cases hnow : nowTs ≤ c.weakUntilTs
      · simpa [hnow] using hweak w hw
      · simpa [hnow] using hbase
  have hrestT : (1e-6 : ℝ) ≤ c.rest * T := by
    calc (1e-6 : ℝ) ≤ c.rest := hrest
    _ = c.rest * 1 := (mul_one _).symm
    _ ≤ c.rest * T :=
      mul_le_mul_of_nonneg_left (le_trans hfloor1 hTfloor)
        (le_trans (by norm_num) hrest)
  set d := jsHypot ((pGet ps c.b).positionX - (pGet ps c.a).positionX)
    ((pGet ps c.b).positionY - (pGet ps c.a).positionY) with hd
  refine ⟨hTfloor, ?_⟩
  by_cases hlt : c.rest * T < jsOr d 1e-6
  · have hsat : (satisfy S ps c nowTs).2.1 = (forceBreak S ps c).2 := by
      rw [satisfy]
      simp only [hb, Bool.false_eq_true, if_false]
      rw [← hT, ← hd, if_pos hlt]
    have hdne : d ≠ 0 := by
      intro h0
      rw [jsOr, if_pos h0] at hlt
      exact absurd hrestT (not_le.mpr hlt)
    rw [jsOr, if_neg hdne] at hlt
    rw [hsat]
    simp [forceBreak_snd_broken, hlt]
  · have hsat : (satisfy S ps c nowTs).2.1 = c := by
      rw [satisfy]
      simp only [hb, Bool.false_eq_true, if_false]
      rw [← hT, ← hd, if_neg hlt]
      split
      · rfl
      · split
        · rfl
        · split
          · rfl
          · rfl
    rw [hsat]
    simp only [hb, Bool.false_eq_true, false_iff]
    intro hcon
    apply hlt
    have hdpos : d ≠ 0 := by
      intro h0
      rw [h0] at hcon
      exact absurd (le_trans (by norm_num : (0:ℝ) ≤ 1e-6) hrestT)
        (not_le.mpr hcon)
    rw [jsOr, if_neg hdpos]
    exact hcon

/-- Witness for C1 on a concrete intact constraint. -/
theorem break_threshold_iff_witness :
    ((mkConstraint SETTINGS 0 1 10 0.35).broken = false) ∧
    ((1 : ℝ) ≤ SETTINGS.minWeakThreshold) ∧
    (SETTINGS.minWeakThreshold ≤
      (mkConstraint SETTINGS 0 1 10 0.35).breakThresholdBase) ∧
    (∀ w, (mkConstraint SETTINGS 0 1 10 0.35).weakThreshold = some w →
      SETTINGS.minWeakThreshold ≤ w) ∧
    ((1e-6 : ℝ) ≤ (mkConstraint SETTINGS 0 1 10 0.35).rest) ∧
    (SETTINGS.minWeakThreshold ≤
      getCurrentBreakThreshold (mkConstraint SETTINGS 0 1 10 0.35) 0 ∧
    (((satisfy SETTINGS wParticlesC1 (mkConstraint SETTINGS 0 1 10 0.35) 0).2.1.broken
        = true) ↔
      (mkConstraint SETTINGS 0 1 10 0.35).rest *
          getCurrentBreakThreshold (mkConstraint SETTINGS 0 1 10 0.35) 0 <
        jsHypot ((pGet wParticlesC1 (mkConstraint SETTINGS 0 1 10 0.35).b).positionX
            - (pGet wParticlesC1 (mkConstraint SETTINGS 0 1 10 0.35).a).positionX)
          ((pGet wParticlesC1 (mkConstraint SETTINGS 0 1 10 0.35).b).positionY
            - (pGet wParticlesC1 (mkConstraint SETTINGS 0 1 10 0.35).a).positionY))) := by
  have hweak : ∀ w, (mkConstraint SETTINGS 0 1 10 0.35).weakThreshold = some w →
      SETTINGS.minWeakThreshold ≤ w := by
    intro w hw
    exact absurd hw (by simp [mkConstraint])
  refine ⟨rfl, by norm_num [SETTINGS], by norm_num [SETTINGS, mkConstraint], hweak,
    by norm_num [mkConstraint], ?_⟩
  exact break_threshold_iff SETTINGS wParticlesC1 (mkConstraint SETTINGS 0 1 10 0.35) 0
    rfl (by norm_num [SETTINGS]) (by norm_num [SETTINGS, mkConstraint]) hweak
    (by norm_num [mkConstraint])

/-! Facts about satisfy and the per-pass break counter. -/

/-- When satisfy reports success the constraint is returned unchanged. -/
theorem satisfy_ok_eq (S : Settings) (ps : List Particle)
    (c : DistanceConstraint) (nowTs : ℝ) (hc : c.broken = false) :
    (satisfy S ps c nowTs).2.2 = true → (satisfy S ps c nowTs).2.1 = c := by
  rw [satisfy]
  simp only [hc, Bool.false_eq_true, if_false]
  split
  · intro h; exact absurd h (by simp)
  · split
    · intro _; rfl
    · split
      · intro _; rfl
      · split
        · intro _; rfl
        · intro _; rfl

/-- When satisfy reports failure on an intact constraint it has broken it. -/
theorem satisfy_break_broken (S : Settings) (ps : List Particle)
    (c : DistanceConstraint) (nowTs : ℝ) (hc : c.broken = false) :
    (satisfy S ps c nowTs).2.2 = false → (satisfy S ps c nowTs).2.1.broken = true := by
  rw [satisfy]
  simp only [hc, Bool.false_eq_true, if_false]
  split
  · intro _; exact forceBreak_snd_broken S ps c
  · split
    · intro h; exact absurd h (by simp)
    · split
      · intro h; exact absurd h (by simp)
      · split
        · intro h; exact absurd h (by simp)
        · intro h; exact absurd h (by simp)

/-- countBroken unfolded on a cons cell. -/
theorem countBroken_cons (c : DistanceConstraint)
    (cs : List DistanceConstraint) :
    countBroken (c :: cs) = countBroken cs + (if c.broken then 1 else 0) := by
  simp [countBroken, List.countP_cons]

/-- Invariant of one relaxation pass: starting strictly under the cap,
the final counter stays at or below the cap and above the start, the
constraint list keeps its length, the number of broken constraints grows
exactly by the counter increase, and already broken constraints pass
through unchanged. -/
theorem runPass_cap_aux (S : Settings) (nowTs : ℝ) :
    ∀ (cs : List DistanceConstraint) (ps : List Particle) (b : ℕ),
      b < S.maxBreaksPerStep →
      (runPass S nowTs ps cs b).2.2 ≤ S.maxBreaksPerStep ∧
      b ≤ (runPass S nowTs ps cs b).2.2 ∧
      (runPass S nowTs ps cs b).2.1.length = cs.length ∧
      countBroken (runPass S nowTs ps cs b).2.1 + b =
        countBroken cs + (runPass S nowTs ps cs b).2.2 ∧
      (∀ i, (cs.getD i defaultConstraint).broken = true →
        (runPass S nowTs ps cs b).2.1.getD i defaultConstraint =
          cs.getD i defaultConstraint) := by
  intro cs
  induction cs with
  | nil =>
    intro ps b hb
    exact ⟨hb.le, le_refl _, rfl, rfl, fun i _ => rfl⟩
  | cons c rest ih =>
    intro ps b hb
    by_cases hc : c.broken = true
    · have hrun : runPass S nowTs ps (c :: rest) b =
          ((runPass S nowTs ps rest b).1,
            c :: (runPass S nowTs ps rest b).2.1,
            (runPass S nowTs ps rest b).2.2) := by
        rw [runPass]
        simp [hc]
      obtain ⟨h1, h2, h3, h4, h5⟩ := ih ps b hb
      rw [hrun]
      refine ⟨h1, h2, by simpa using h3, ?_, ?_⟩
      · show countBroken (c :: (runPass S nowTs ps rest b).2.1) + b =
          countBroken (c :: rest) + (runPass S nowTs ps rest b).2.2
        simp only [countBroken_cons, hc, eq_self_iff_true, if_true]
        omega
      · intro i hbi
        cases i with
        | zero => rfl
        | succ n => simpa using h5 n (by simpa using hbi)
    · have hcf : c.broken = false := by
        cases hcc : c.broken
        · rfl
        · exact absurd hcc hc
      by_cases hok : (satisfy S ps c nowTs).2.2 = true
      · have hceq : (satisfy S ps c nowTs).2.1 = c :=
          satisfy_ok_eq S ps c nowTs hcf hok
        have hrun : runPass S nowTs ps (c :: rest) b =
            ((runPass S nowTs (satisfy S ps c nowTs).1 rest b).1,
              (satisfy S ps c nowTs).2.1 ::
                (runPass S nowTs (satisfy S ps c nowTs).1 rest b).2.1,
              (runPass S nowTs (satisfy S ps c nowTs).1 rest b).2.2) := by
          rw [runPass]
          simp [hc, hok]
        obtain ⟨h1, h2, h3, h4, h5⟩ := ih (satisfy S ps c nowTs).1 b hb
        rw [hrun]
        refine ⟨h1, h2, by simpa using h3, ?_, ?_⟩
        · show countBroken ((satisfy S ps c nowTs).2.1 ::
              (runPass S nowTs (satisfy S ps c nowTs).1 rest b).2.1) + b =
            countBroken (c :: rest) +
              (runPass S nowTs (satisfy S ps c nowTs).1 rest b).2.2
          simp only [countBroken_cons, hceq, hcf, Bool.false_eq_true, if_false]
          omega
        · intro i hbi
          cases i with
          | zero =>
            exact absurd (by simpa using hbi) hc
          | succ n => simpa using h5 n (by simpa using hbi)
      · have hokf : (satisfy S ps c nowTs).2.2 = false := by
          cases hcc : (satisfy S ps c nowTs).2.2
          · rfl
          · exact absurd hcc hok
        have hbr : (satisfy S ps c nowTs).2.1.broken = true :=
          satisfy_break_broken S ps c nowTs hcf hokf
        by_cases hstop : S.maxBreaksPerStep ≤ b + 1
        · have hrun : runPass S nowTs ps (c :: rest) b =
              ((satisfy S ps c nowTs).1,
                (satisfy S ps c nowTs).2.1 :: rest, b + 1) := by
            rw [runPass]
            simp [hc, hokf, hstop]
          rw [hrun]
          refine ⟨?_, ?_, by simp, ?_, ?_⟩
          · show b + 1 ≤ S.maxBreaksPerStep
            omega
          · show b ≤ b + 1
            omega
          · show countBroken ((satisfy S ps c nowTs).2.1 :: rest) + b =
              countBroken (c :: rest) + (b + 1)
            simp only [countBroken_cons, hbr, hcf, eq_self_iff_true, if_true,
              Bool.false_eq_true, if_false]
            omega
          · intro i hbi
            cases i with
            | zero => exact absurd (by simpa using hbi) hc
            | succ n => rfl
        · have hb1 : b + 1 < S.maxBreaksPerStep := not_le.mp hstop
          have hrun : runPass S nowTs ps (c :: rest) b =
              ((runPass S nowTs (satisfy S ps c nowTs).1 rest (b + 1)).1,
                (satisfy S ps c nowTs).2.1 ::
                  (runPass S nowTs (satisfy S ps c nowTs).1 rest (b + 1)).2.1,
                (runPass S nowTs (satisfy S ps c nowTs).1 rest (b + 1)).2.2) := by
            rw [runPass]
            simp [hc, hokf, hstop]
          obtain ⟨h1, h2, h3, h4, h5⟩ := ih (satisfy S ps c nowTs).1 (b + 1) hb1
          rw [hrun]
          refine ⟨h1, ?_, by simpa using h3, ?_, ?_⟩
          · show b ≤ (runPass S nowTs (satisfy S ps c nowTs).1 rest (b + 1)).2.2
            omega
          · show countBroken ((satisfy S ps c nowTs).2.1 ::
                (runPass S nowTs (satisfy S ps c nowTs).1 rest (b + 1)).2.1) + b =
              countBroken (c :: rest) +
                (runPass S nowTs (satisfy S ps c nowTs).1 rest (b + 1)).2.2
            simp only [countBroken_cons, hbr, hcf, eq_self_iff_true, if_true,
              Bool.false_eq_true, if_false]
            omega
          · intro i hbi
            cases i with
            | zero => exact absurd (by simpa using hbi) hc
            | succ n => simpa using h5 n (by simpa using hbi)

/-- Claim C5: within one relaxation pass at most maxBreaksPerStep
constraints are newly marked broken; the pass never loses or corrupts
constraints (length preserved, broken count grows exactly by the counter,
already broken entries pass through unchanged). -/
theorem break_cap (S : Settings) (nowTs : ℝ) (ps : List Particle)
    (cs : List DistanceConstraint) (hcap : 1 ≤ S.maxBreaksPerStep) :
    (runPass S nowTs ps cs 0).2.2 ≤ S.maxBreaksPerStep ∧
    (runPass S nowTs ps cs 0).2.1.length = cs.length ∧
    countBroken (runPass S nowTs ps cs 0).2.1 =
      countBroken cs + (runPass S nowTs ps cs 0).2.2 ∧
    (∀ i, (cs.getD i defaultConstraint).broken = true →
      (runPass S nowTs ps cs 0).2.1.getD i defaultConstraint =
        cs.getD i defaultConstraint) := by
  obtain ⟨h1, _, h3, h4, h5⟩ := runPass_cap_aux S nowTs cs ps 0 hcap
  exact ⟨h1, h3, by omega, h5⟩

/-- Witness for C5 on a concrete state. -/
theorem break_cap_witness :
    (1 ≤ SETTINGS.maxBreaksPerStep) ∧
    ((runPass SETTINGS 0 [] [] 0).2.2 ≤ SETTINGS.maxBreaksPerStep ∧
    (runPass SETTINGS 0 [] [] 0).2.1.length = ([] : List DistanceConstraint).length ∧
    countBroken (runPass SETTINGS 0 [] [] 0).2.1 =
      countBroken ([] : List DistanceConstraint) + (runPass SETTINGS 0 [] [] 0).2.2 ∧
    (∀ i, (([] : List DistanceConstraint).getD i defaultConstraint).broken = true →
      (runPass SETTINGS 0 [] [] 0).2.1.getD i defaultConstraint =
        ([] : List DistanceConstraint).getD i defaultConstraint)) :=
  ⟨by norm_num [SETTINGS], break_cap SETTINGS 0 [] [] (by norm_num [SETTINGS])⟩

/-! Relaxation convergence for a single free-free constraint. -/

theorem pGet_updAt_ne (ps : List Particle) (i j : ℕ) (f : Particle → Particle)
    (h : i ≠ j) : pGet (updAt ps j f) i = pGet ps i :=
  getD_updAt_ne ps i j f defaultParticle h

theorem pGet_updAt_self (ps : List Particle) (j : ℕ) (f : Particle → Particle)
    (h : j < ps.length) : pGet (updAt ps j f) j = f (pGet ps j) :=
  getD_updAt_self ps j f defaultParticle h

theorem jsHypot_mul_left (e dx dy : ℝ) (he : 0 ≤ e) :
    jsHypot (e * dx) (e * dy) = e * jsHypot dx dy := by
  rw [jsHypot, jsHypot]
  have h : e * dx * (e * dx) + e * dy * (e * dy)
      = e ^ 2 * (dx * dx + dy * dy) := by ring
  rw [h, Real.sqrt_mul (sq_nonneg e), Real.sqrt_sq he]

/-- Claim C6: for a single constraint between two free particles whose
distance d satisfies rest < d and d at most rest times the break
threshold, satisfy succeeds, applies the proportional correction with
scalar stiffness times (d minus rest) over d split equally between the
endpoints, and the new gap is (1 minus stiffness) times the old gap, a
strict monotone decrease toward zero. -/
theorem relaxation_contracts (S : Settings) (ps : List Particle)
    (c : DistanceConstraint) (nowTs dx dy d : ℝ)
    (hdx : dx = (pGet ps c.b).positionX - (pGet ps c.a).positionX)
    (hdy : dy = (pGet ps c.b).positionY - (pGet ps c.a).positionY)
    (hd : d = jsHypot dx dy)
    (ha : c.a < ps.length) (hb : c.b < ps.length) (hab : c.a ≠ c.b)
    (hpa : (pGet ps c.a).pinned = false) (hpb : (pGet ps c.b).pinned = false)
    (hbroken : c.broken = false)
    (hrest : 0 < c.rest) (hstretch : c.rest < d)
    (hthr : d ≤ c.rest * getCurrentBreakThreshold c nowTs)
    (hk0 : 0 < c.stiffness) (hk1 : c.stiffness ≤ 1) :
    (satisfy S ps c nowTs).2.2 = true ∧
    (satisfy S ps c nowTs).2.1 = c ∧
    (pGet (satisfy S ps c nowTs).1 c.a).positionX
      = (pGet ps c.a).positionX + 0.5 * (c.stiffness * ((d - c.rest) / d)) * dx ∧
    (pGet (satisfy S ps c nowTs).1 c.a).positionY
      = (pGet ps c.a).positionY + 0.5 * (c.stiffness * ((d - c.rest) / d)) * dy ∧
    (pGet (satisfy S ps c nowTs).1 c.b).positionX
      = (pGet ps c.b).positionX - 0.5 * (c.stiffness * ((d - c.rest) / d)) * dx ∧
    (pGet (satisfy S ps c nowTs).1 c.b).positionY
      = (pGet ps c.b).positionY - 0.5 * (c.stiffness * ((d - c.rest) / d)) * dy ∧
    jsHypot ((pGet (satisfy S ps c nowTs).1 c.b).positionX
        - (pGet (satisfy S ps c nowTs).1 c.a).positionX)
      ((pGet (satisfy S ps c nowTs).1 c.b).positionY
        - (pGet (satisfy S ps c nowTs).1 c.a).positionY) - c.rest
      = (1 - c.stiffness) * (d - c.rest) ∧
    0 ≤ (1 - c.stiffness) * (d - c.rest) ∧
    (1 - c.stiffness) * (d - c.rest) < d - c.rest := by
  have hd0 : (0 : ℝ) < d := lt_trans hrest hstretch
  have hdne : jsHypot dx dy ≠ 0 := by rw [← hd]; exact ne_of_gt hd0
  have hjsd : jsOr (jsHypot dx dy) 1e-6 = jsHypot dx dy := by
    rw [jsOr, if_neg hdne]
  have hnb : ¬ (c.rest * getCurrentBreakThreshold c nowTs <
      jsOr (jsHypot ((pGet ps c.b).positionX - (pGet ps c.a).positionX)
        ((pGet ps c.b).positionY - (pGet ps c.a).positionY)) 1e-6) := by
    rw [← hdx, ← hdy, hjsd, ← hd]
    exact not_lt.mpr hthr
  have hCX : (pGet (satisfy S ps c nowTs).1 c.a).positionX
      = (pGet ps c.a).positionX + 0.5 * (c.stiffness * ((d - c.rest) / d)) * dx := by
    rw [satisfy]
    simp only [hbroken, Bool.false_eq_true, if_false]
    rw [if_neg hnb, if_pos ⟨hpa, hpb⟩]
    rw [pGet_updAt_ne _ _ _ _ hab, pGet_updAt_self _ _ _ ha]
    dsimp only
    rw [← hdx, ← hdy, hjsd, ← hd]
    ring
  have hCY : (pGet (satisfy S ps c nowTs).1 c.a).positionY
      = (pGet ps c.a).positionY + 0.5 * (c.stiffness * ((d - c.rest) / d)) * dy := by
    rw [satisfy]
    simp only [hbroken, Bool.false_eq_true, if_false]
    rw [if_neg hnb, if_pos ⟨hpa, hpb⟩]
    rw [pGet_updAt_ne _ _ _ _ hab, pGet_updAt_self _ _ _ ha]
    dsimp only
    rw [← hdx, ← hdy, hjsd, ← hd]
    ring
  have hblen : ∀ f : Particle → Particle, c.b < (updAt ps c.a f).length := by
    intro f
    rw [updAt_length]
    exact hb
  have hEX : (pGet (satisfy S ps c nowTs).1 c.b).positionX
      = (pGet ps c.b).positionX - 0.5 * (c.stiffness * ((d - c.rest) / d)) * dx := by
    rw [satisfy]
    simp only [hbroken, Bool.false_eq_true, if_false]
    rw [if_neg hnb, if_pos ⟨hpa, hpb⟩]
    rw [pGet_updAt_self _ _ _ (hblen _), pGet_updAt_ne _ _ _ _ (Ne.symm hab)]
    dsimp only
    rw [← hdx, ← hdy, hjsd, ← hd]
    ring
  have hEY : (pGet (satisfy S ps c nowTs).1 c.b).positionY
      = (pGet ps c.b).positionY - 0.5 * (c.stiffness * ((d - c.rest) / d)) * dy := by
    rw [satisfy]
    simp only [hbroken, Bool.false_eq_true, if_false]
    rw [if_neg hnb, if_pos ⟨hpa, hpb⟩]
    rw [pGet_updAt_self _ _ _ (hblen _), pGet_updAt_ne _ _ _ _ (Ne.symm hab)]
    dsimp only
    rw [← hdx, ← hdy, hjsd, ← hd]
    ring
  have hsA : (satisfy S ps c nowTs).2.2 = true := by
    rw [satisfy]
    simp only [hbroken, Bool.false_eq_true, if_false]
    rw [if_neg hnb, if_pos ⟨hpa, hpb⟩]
  have hsB : (satisfy S ps c nowTs).2.1 = c := by
    rw [satisfy]
    simp only [hbroken, Bool.false_eq_true, if_false]
    rw [if_neg hnb, if_pos ⟨hpa, hpb⟩]
  have hdiffpos : 0 < (d - c.rest) / d := div_pos (by linarith) hd0
  have hdifflt : (d - c.rest) / d < 1 := (div_lt_one hd0).mpr (by linarith)
  have hkd : c.stiffness * ((d - c.rest) / d) < 1 :=
    lt_of_le_of_lt (mul_le_of_le_one_left hdiffpos.le hk1) hdifflt
  have he0 : 0 ≤ 1 - c.stiffness * ((d - c.rest) / d) := by linarith
  have hqx : (pGet ps c.b).positionX = dx + (pGet ps c.a).positionX := by
    rw [hdx]; ring
  have hqy : (pGet ps c.b).positionY = dy + (pGet ps c.a).positionY := by
    rw [hdy]; ring
  have hG : jsHypot ((pGet (satisfy S ps c nowTs).1 c.b).positionX
        - (pGet (satisfy S ps c nowTs).1 c.a).positionX)
      ((pGet (satisfy S ps c nowTs).1 c.b).positionY
        - (pGet (satisfy S ps c nowTs).1 c.a).positionY) - c.rest
      = (1 - c.stiffness) * (d - c.rest) := by
    rw [hCX, hCY, hEX, hEY, hqx, hqy]
    have hx2 : dx + (pGet ps c.a).positionX
          - 0.5 * (c.stiffness * ((d - c.rest) / d)) * dx
          - ((pGet ps c.a).positionX
            + 0.5 * (c.stiffness * ((d - c.rest) / d)) * dx)
        = (1 - c.stiffness * ((d - c.rest) / d)) * dx := by ring
    have hy2 : dy + (pGet ps c.a).positionY
          - 0.5 * (c.stiffness * ((d - c.rest) / d)) * dy
          - ((pGet ps c.a).positionY
            + 0.5 * (c.stiffness * ((d - c.rest) / d)) * dy)
        = (1 - c.stiffness * ((d - c.rest) / d)) * dy := by ring
    rw [hx2, hy2, jsHypot_mul_left _ _ _ he0, ← hd]
    field_simp
    ring
  refine ⟨hsA, hsB, hCX, hCY, hEX, hEY, hG, ?_, ?_⟩
  · exact mul_nonneg (by linarith) (by linarith)
  · exact mul_lt_of_lt_one_left (by linarith) (by linarith)

/-- Square root of 25. -/
theorem sqrt_twentyfive : Real.sqrt 25 = 5 := by
  rw [show (25 : ℝ) = 5 ^ 2 by norm_num]
  exact Real.sqrt_sq (by norm_num)

/-- Witness for C6: one pass on a concrete stretched constraint. -/
theorem relaxation_contracts_witness :
    ((3 : ℝ) = (pGet wParticlesC6 wConstraintC6.b).positionX
      - (pGet wParticlesC6 wConstraintC6.a).positionX) ∧
    ((4 : ℝ) = (pGet wParticlesC6 wConstraintC6.b).positionY
      - (pGet wParticlesC6 wConstraintC6.a).positionY) ∧
    ((5 : ℝ) = jsHypot 3 4) ∧
    (wConstraintC6.rest < 5) ∧
    ((5 : ℝ) ≤ wConstraintC6.rest * getCurrentBreakThreshold wConstraintC6 0) ∧
    ((satisfy SETTINGS wParticlesC6 wConstraintC6 0).2.2 = true ∧
      (satisfy SETTINGS wParticlesC6 wConstraintC6 0).2.1 = wConstraintC6 ∧
      (pGet (satisfy SETTINGS wParticlesC6 wConstraintC6 0).1 wConstraintC6.a).positionX
        = (pGet wParticlesC6 wConstraintC6.a).positionX
          + 0.5 * (wConstraintC6.stiffness * ((5 - wConstraintC6.rest) / 5)) * 3 ∧
      (pGet (satisfy SETTINGS wParticlesC6 wConstraintC6 0).1 wConstraintC6.a).positionY
        = (pGet wParticlesC6 wConstraintC6.a).positionY
          + 0.5 * (wConstraintC6.stiffness * ((5 - wConstraintC6.rest) / 5)) * 4 ∧
      (pGet (satisfy SETTINGS wParticlesC6 wConstraintC6 0).1 wConstraintC6.b).positionX
        = (pGet wParticlesC6 wConstraintC6.b).positionX
          - 0.5 * (wConstraintC6.stiffness * ((5 - wConstraintC6.rest) / 5)) * 3 ∧
      (pGet (satisfy SETTINGS wParticlesC6 wConstraintC6 0).1 wConstraintC6.b).positionY
        = (pGet wParticlesC6 wConstraintC6.b).positionY
          - 0.5 * (wConstraintC6.stiffness * ((5 - wConstraintC6.rest) / 5)) * 4 ∧
      jsHypot ((pGet (satisfy SETTINGS wParticlesC6 wConstraintC6 0).1 wConstraintC6.b).positionX
          - (pGet (satisfy SETTINGS wParticlesC6 wConstraintC6 0).1 wConstraintC6.a).positionX)
        ((pGet (satisfy SETTINGS wParticlesC6 wConstraintC6 0).1 wConstraintC6.b).positionY
          - (pGet (satisfy SETTINGS wParticlesC6 wConstraintC6 0).1 wConstraintC6.a).positionY)
          - wConstraintC6.rest
        = (1 - wConstraintC6.stiffness) * (5 - wConstraintC6.rest) ∧
      0 ≤ (1 - wConstraintC6.stiffness) * (5 - wConstraintC6.rest) ∧
      (1 - wConstraintC6.stiffness) * (5 - wConstraintC6.rest) < 5 - wConstraintC6.rest) := by
  have hdx : (3 : ℝ) = (pGet wParticlesC6 wConstraintC6.b).positionX
      - (pGet wParticlesC6 wConstraintC6.a).positionX := by
    norm_num [pGet, wParticlesC6, wConstraintC6, mkConstraint, defaultParticle]
  have hdy : (4 : ℝ) = (pGet wParticlesC6 wConstraintC6.b).positionY
      - (pGet wParticlesC6 wConstraintC6.a).positionY := by
    norm_num [pGet, wParticlesC6, wConstraintC6, mkConstraint, defaultParticle]
  have hd : (5 : ℝ) = jsHypot 3 4 := by
    rw [jsHypot]
    rw [show (3 : ℝ) * 3 + 4 * 4 = 25 by norm_num]
    exact sqrt_twentyfive.symm
  have hstretch : wConstraintC6.rest < 5 := by
    norm_num [wConstraintC6, mkConstraint]
  have hthr : (5 : ℝ) ≤ wConstraintC6.rest * getCurrentBreakThreshold wConstraintC6 0 := by
    norm_num [wConstraintC6, mkConstraint, getCurrentBreakThreshold, SETTINGS]
  refine ⟨hdx, hdy, hd, hstretch, hthr, ?_⟩
  exact relaxation_contracts SETTINGS wParticlesC6 wConstraintC6 0 3 4 5
    hdx hdy hd
    (by norm_num [wParticlesC6, wConstraintC6, mkConstraint])
    (by norm_num [wParticlesC6, wConstraintC6, mkConstraint])
    (by norm_num [wConstraintC6, mkConstraint])
    (by norm_num [pGet, wParticlesC6, wConstraintC6, mkConstraint, defaultParticle])
    (by norm_num [pGet, wParticlesC6, wConstraintC6, mkConstraint, defaultParticle])
    (by norm_num [wConstraintC6, mkConstraint])
    (by norm_num [wConstraintC6, mkConstraint])
    hstretch hthr
    (by norm_num [wConstraintC6, mkConstraint])
    (by norm_num [wConstraintC6, mkConstraint])

/-! Pinned particles: every phase of a simulation step leaves the
position and the pinned flag of a pinned particle unchanged. -/

theorem pGet_applyBaseForces (S : Settings) (jit : ℕ → ℝ × ℝ) :
    ∀ (ps : List Particle) (i0 i : ℕ),
      (pGet (applyBaseForces S jit i0 ps) i).positionX = (pGet ps i).positionX ∧
      (pGet (applyBaseForces S jit i0 ps) i).positionY = (pGet ps i).positionY ∧
      (pGet (applyBaseForces S jit i0 ps) i).pinned = (pGet ps i).pinned := by
  intro ps
  induction ps with
  | nil => exact fun i0 i => ⟨rfl, rfl, rfl⟩
  | cons p rest ih =>
    intro i0 i
    cases i with
    | zero =>
      by_cases hp : p.pinned
      · simp [applyBaseForces, pGet, hp]
      · by_cases hg : S.gravityY ≠ 0
        · simp [applyBaseForces, pGet, hp, hg, addForce]
        · simp [applyBaseForces, pGet, hp, hg, addForce]
    | succ n =>
      simpa [applyBaseForces, pGet, List.getD_cons_succ] using ih (i0 + 1) n

theorem pGet_applyPulse (S : Settings) (pu : Pulse) (now : ℝ) :
    ∀ (ps : List Particle) (i : ℕ),
      (pGet (applyPulse S pu now ps) i).positionX = (pGet ps i).positionX ∧
      (pGet (applyPulse S pu now ps) i).positionY = (pGet ps i).positionY ∧
      (pGet (applyPulse S pu now ps) i).pinned = (pGet ps i).pinned := by
  intro ps
  induction ps with
  | nil => exact fun i => ⟨rfl, rfl, rfl⟩
  | cons p rest ih =>
    intro i
    cases i with
    | zero =>
      by_cases hp : p.pinned
      · simp [applyPulse, pGet, hp]
      · simp [applyPulse, pGet, hp, addForce]
    | succ n =>
      simpa [applyPulse, pGet, List.getD_cons_succ] using ih n

theorem pGet_applyPulses (S : Settings) (now : ℝ) :
    ∀ (pulses : List Pulse) (ps : List Particle) (i : ℕ),
      (pGet (applyPulses S now pulses ps) i).positionX = (pGet ps i).positionX ∧
      (pGet (applyPulses S now pulses ps) i).positionY = (pGet ps i).positionY ∧
      (pGet (applyPulses S now pulses ps) i).pinned = (pGet ps i).pinned := by
  intro pulses
  induction pulses with
  | nil => exact fun ps i => ⟨rfl, rfl, rfl⟩
  | cons pu rest ih =>
    intro ps i
    obtain ⟨h1, h2, h3⟩ := ih (applyPulse S pu now ps) i
    obtain ⟨g1, g2, g3⟩ := pGet_applyPulse S pu now ps i
    exact ⟨by rw [applyPulses] at h1 ⊢; rw [List.foldl_cons] at *; rw [h1, g1],
      by rw [applyPulses] at h2 ⊢; rw [List.foldl_cons] at *; rw [h2, g2],
      by rw [applyPulses] at h3 ⊢; rw [List.foldl_cons] at *; rw [h3, g3]⟩

theorem clamp_eq_self (v lo hi : ℝ) (h1 : lo ≤ v) (h2 : v ≤ hi) :
    clamp v lo hi = v := by
  rw [clamp, if_neg (not_lt.mpr h1), if_neg (not_lt.mpr h2)]

theorem pGet_integrateAll_pinned (S : Settings) (w h dt : ℝ) :
    ∀ (ps : List Particle) (i : ℕ),
      (pGet ps i).pinned = true →
      S.borderPadding ≤ (pGet ps i).positionX →
      (pGet ps i).positionX ≤ w - S.borderPadding →
      S.borderPadding ≤ (pGet ps i).positionY →
      (pGet ps i).positionY ≤ h - S.borderPadding →
      (pGet (integrateAll S w h dt ps) i).positionX = (pGet ps i).positionX ∧
      (pGet (integrateAll S w h dt ps) i).positionY = (pGet ps i).positionY ∧
      (pGet (integrateAll S w h dt ps) i).pinned = true := by
  intro ps
  induction ps with
  | nil =>
    intro i hpin _ _ _ _
    exact absurd hpin (by simp [pGet, defaultParticle])
  | cons p rest ih =>
    intro i
    cases i with
    | zero =>
      intro hpin hx1 hx2 hy1 hy2
      have hp : p.pinned = true := by simpa [pGet] using hpin
      have hx1p : S.borderPadding ≤ p.positionX := by simpa [pGet] using hx1
      have hx2p : p.positionX ≤ w - S.borderPadding := by simpa [pGet] using hx2
      have hy1p : S.borderPadding ≤ p.positionY := by simpa [pGet] using hy1
      have hy2p : p.positionY ≤ h - S.borderPadding := by simpa [pGet] using hy2
      refine ⟨?_, ?_, ?_⟩
      · show (let q := verletStep p dt S.damping
          { q with
            positionX := clamp q.positionX S.borderPadding (w - S.borderPadding)
            positionY := clamp q.positionY S.borderPadding (h - S.borderPadding) }).positionX
          = p.positionX
        simp only [verletStep, hp, if_true]
        exact clamp_eq_self _ _ _ hx1p hx2p
      · show (let q := verletStep p dt S.damping
          { q with
            positionX := clamp q.positionX S.borderPadding (w - S.borderPadding)
            positionY := clamp q.positionY S.borderPadding (h - S.borderPadding) }).positionY
          = p.positionY
        simp only [verletStep, hp, if_true]
        exact clamp_eq_self _ _ _ hy1p hy2p
      · show (let q := verletStep p dt S.damping
          { q with
            positionX := clamp q.positionX S.borderPadding (w - S.borderPadding)
            positionY := clamp q.positionY S.borderPadding (h - S.borderPadding) }).pinned
          = true
        simp only [verletStep, hp, if_true]
    | succ n =>
      intro hpin hx1 hx2 hy1 hy2
      simpa [integrateAll, pGet, List.getD_cons_succ] using
        ih n (by simpa [pGet] using hpin) (by simpa [pGet] using hx1)
          (by simpa [pGet] using hx2) (by simpa [pGet] using hy1)
          (by simpa [pGet] using hy2)

theorem forceBreak_pGet_pinned (S : Settings) (ps : List Particle)
    (c : DistanceConstraint) (i : ℕ) (hpin : (pGet ps i).pinned = true) :
    pGet (forceBreak S ps c).1 i = pGet ps i := by
  have hne : ∀ j, (pGet ps j).pinned = false → i ≠ j := by
    intro j hj he
    rw [he, hj] at hpin
    cases hpin
  rw [forceBreak]
  split
  · rfl
  · dsimp only
    split
    · next hcond =>
      rw [pGet_updAt_ne _ _ _ _ (hne _ hcond.2), pGet_updAt_ne _ _ _ _ (hne _ hcond.1)]
    · split
      · next hcond =>
        rw [pGet_updAt_ne _ _ _ _ (hne _ hcond.2)]
      · split
        · next hcond =>
          rw [pGet_updAt_ne _ _ _ _ (hne _ hcond.1)]
        · rfl

theorem satisfy_pGet_pinned (S : Settings) (ps : List Particle)
    (c : DistanceConstraint) (nowTs : ℝ) (i : ℕ)
    (hpin : (pGet ps i).pinned = true) :
    pGet (satisfy S ps c nowTs).1 i = pGet ps i := by
  have hne : ∀ j, (pGet ps j).pinned = false → i ≠ j := by
    intro j hj he
    rw [he, hj] at hpin
    cases hpin
  rw [satisfy]
  split
  · rfl
  · dsimp only
    split
    · exact forceBreak_pGet_pinned S ps c i hpin
    · split
      · next hcond =>
        rw [pGet_updAt_ne _ _ _ _ (hne _ hcond.2), pGet_updAt_ne _ _ _ _ (hne _ hcond.1)]
      · split
        · next hcond =>
          rw [pGet_updAt_ne _ _ _ _ (hne _ hcond.2)]
        · split
          · next hcond =>
            rw [pGet_updAt_ne _ _ _ _ (hne _ hcond.1)]
          · rfl

theorem runPass_pGet_pinned (S : Settings) (nowTs : ℝ) :
    ∀ (cs : List DistanceConstraint) (ps : List Particle) (b i : ℕ),
      (pGet ps i).pinned = true →
      pGet (runPass S nowTs ps cs b).1 i = pGet ps i := by
  intro cs
  induction cs with
  | nil => exact fun ps b i _ => rfl
  | cons c rest ih =>
    intro ps b i hpin
    rw [runPass]
    split
    · exact ih ps b i hpin
    · dsimp only
      have h1 := satisfy_pGet_pinned S ps c nowTs i hpin
      have h2 : (pGet (satisfy S ps c nowTs).1 i).pinned = true := by
        rw [h1]; exact hpin
      split
      · rw [ih (satisfy S ps c nowTs).1 b i h2, h1]
      · split
        · exact h1
        · rw [ih (satisfy S ps c nowTs).1 (b + 1) i h2, h1]

theorem relaxLoop_pGet_pinned (S : Settings) (nowTs : ℝ) :
    ∀ (k : ℕ) (ps : List Particle) (cs : List DistanceConstraint) (i : ℕ),
      (pGet ps i).pinned = true →
      pGet (relaxLoop S nowTs k ps cs).1 i = pGet ps i := by
  intro k
  induction k with
  | zero => exact fun ps cs i _ => rfl
  | succ n ih =>
    intro ps cs i hpin
    rw [relaxLoop]
    have h1 := runPass_pGet_pinned S nowTs cs ps 0 i hpin
    have h2 : (pGet (runPass S nowTs ps cs 0).1 i).pinned = true := by
      rw [h1]; exact hpin
    rw [ih (runPass S nowTs ps cs 0).1 (runPass S nowTs ps cs 0).2.1 i h2, h1]

/-- One whole simulation step leaves the position and pinned flag of an
in-bounds pinned particle unchanged. -/
theorem stepSimulation_pinned (S : Settings) (w h dtMs : ℝ)
    (jit : ℕ → ℝ × ℝ) (now nowTs : ℝ) (st : SimState) (i : ℕ)
    (hpin : (pGet st.particles i).pinned = true)
    (hx1 : S.borderPadding ≤ (pGet st.particles i).positionX)
    (hx2 : (pGet st.particles i).positionX ≤ w - S.borderPadding)
    (hy1 : S.borderPadding ≤ (pGet st.particles i).positionY)
    (hy2 : (pGet st.particles i).positionY ≤ h - S.borderPadding) :
    (pGet (stepSimulation S w h dtMs jit now nowTs st).particles i).positionX
        = (pGet st.particles i).positionX ∧
    (pGet (stepSimulation S w h dtMs jit now nowTs st).particles i).positionY
        = (pGet st.particles i).positionY ∧
    (pGet (stepSimulation S w h dtMs jit now nowTs st).particles i).pinned
        = true := by
  obtain ⟨b1, b2, b3⟩ := pGet_applyBaseForces S jit st.particles 0 i
  obtain ⟨p1, p2, p3⟩ := pGet_applyPulses S now
    (st.pulses.filter fun pu => now - pu.createdAt < S.pulseHalfLifeMs * 6)
    (applyBaseForces S jit 0 st.particles) i
  have hpin1 : (pGet (applyPulses S now
      (st.pulses.filter fun pu => now - pu.createdAt < S.pulseHalfLifeMs * 6)
      (applyBaseForces S jit 0 st.particles)) i).pinned = true := by
    rw [p3, b3]; exact hpin
  obtain ⟨i1, i2, i3⟩ := pGet_integrateAll_pinned S w h (dtMs / 1000) _ i hpin1
    (by rw [p1, b1]; exact hx1) (by rw [p1, b1]; exact hx2)
    (by rw [p2, b2]; exact hy1) (by rw [p2, b2]; exact hy2)
  have hr := relaxLoop_pGet_pinned S nowTs S.constraintIterations
    (integrateAll S w h (dtMs / 1000)
      (applyPulses S now
        (st.pulses.filter fun pu => now - pu.createdAt < S.pulseHalfLifeMs * 6)
        (applyBaseForces S jit 0 st.particles)))
    (st.constraints) i i3
  refine ⟨?_, ?_, ?_⟩
  · show (pGet (relaxLoop S nowTs S.constraintIterations
        (integrateAll S w h (dtMs / 1000)
          (applyPulses S now
            (st.pulses.filter fun pu => now - pu.createdAt < S.pulseHalfLifeMs * 6)
            (applyBaseForces S jit 0 st.particles)))
        st.constraints).1 i).positionX = (pGet st.particles i).positionX
    rw [hr, i1, p1, b1]
  · show (pGet (relaxLoop S nowTs S.constraintIterations
        (integrateAll S w h (dtMs / 1000)
          (applyPulses S now
            (st.pulses.filter fun pu => now - pu.createdAt < S.pulseHalfLifeMs * 6)
            (applyBaseForces S jit 0 st.particles)))
        st.constraints).1 i).positionY = (pGet st.particles i).positionY
    rw [hr, i2, p2, b2]
  · show (pGet (relaxLoop S nowTs S.constraintIterations
        (integrateAll S w h (dtMs / 1000)
          (applyPulses S now
            (st.pulses.filter fun pu => now - pu.createdAt < S.pulseHalfLifeMs * 6)
            (applyBaseForces S jit 0 st.particles)))
        st.constraints).1 i).pinned = true
    rw [hr, i3]

/-- Any number of simulation steps leaves an in-bounds pinned particle
where it was. -/
theorem foldSteps_pinned (S : Settings) (w h : ℝ) :
    ∀ (l : List StepArgs) (st : SimState) (i : ℕ),
      (pGet st.particles i).pinned = true →
      S.borderPadding ≤ (pGet st.particles i).positionX →
      (pGet st.particles i).positionX ≤ w - S.borderPadding →
      S.borderPadding ≤ (pGet st.particles i).positionY →
      (pGet st.particles i).positionY ≤ h - S.borderPadding →
      (pGet (foldSteps S w h l st).particles i).positionX
          = (pGet st.particles i).positionX ∧
      (pGet (foldSteps S w h l st).particles i).positionY
          = (pGet st.particles i).positionY ∧
      (pGet (foldSteps S w h l st).particles i).pinned = true := by
  intro l
  induction l with
  | nil => exact fun st i hpin _ _ _ _ => ⟨rfl, rfl, hpin⟩
  | cons a rest ih =>
    intro st i hpin hx1 hx2 hy1 hy2
    obtain ⟨s1, s2, s3⟩ :=
      stepSimulation_pinned S w h a.dtMs a.jit a.now a.nowTs st i hpin hx1 hx2 hy1 hy2
    obtain ⟨r1, r2, r3⟩ := ih (stepSimulation S w h a.dtMs a.jit a.now a.nowTs st) i
      s3 (by rw [s1]; exact hx1) (by rw [s1]; exact hx2)
      (by rw [s2]; exact hy1) (by rw [s2]; exact hy2)
    refine ⟨?_, ?_, ?_⟩
    · show (pGet (foldSteps S w h rest
          (stepSimulation S w h a.dtMs a.jit a.now a.nowTs st)).particles i).positionX
        = (pGet st.particles i).positionX
      rw [r1, s1]
    · show (pGet (foldSteps S w h rest
          (stepSimulation S w h a.dtMs a.jit a.now a.nowTs st)).particles i).positionY
        = (pGet st.particles i).positionY
      rw [r2, s2]
    · show (pGet (foldSteps S w h rest
          (stepSimulation S w h a.dtMs a.jit a.now a.nowTs st)).particles i).pinned
        = true
      rw [r3]

/-- Claim C4: a pinned particle inside the clamp rectangle never moves:
not across any number of whole simulation steps (integration plus
relaxation passes plus breaks), not by a constraint correction, and not
by the tear separation impulse of forceBreak. -/
theorem pinned_invariant (S : Settings) (w h : ℝ) (l : List StepArgs)
    (st : SimState) (i : ℕ)
    (hpin : (pGet st.particles i).pinned = true)
    (hx1 : S.borderPadding ≤ (pGet st.particles i).positionX)
    (hx2 : (pGet st.particles i).positionX ≤ w - S.borderPadding)
    (hy1 : S.borderPadding ≤ (pGet st.particles i).positionY)
    (hy2 : (pGet st.particles i).positionY ≤ h - S.borderPadding) :
    ((pGet (foldSteps S w h l st).particles i).positionX
        = (pGet st.particles i).positionX ∧
      (pGet (foldSteps S w h l st).particles i).positionY
        = (pGet st.particles i).positionY ∧
      (pGet (foldSteps S w h l st).particles i).pinned = true) ∧
    (∀ (ps : List Particle) (c : DistanceConstraint),
      (pGet ps i).pinned = true → pGet (forceBreak S ps c).1 i = pGet ps i) ∧
    (∀ (ps : List Particle) (c : DistanceConstraint) (t : ℝ),
      (pGet ps i).pinned = true → pGet (satisfy S ps c t).1 i = pGet ps i) :=
  ⟨foldSteps_pinned S w h l st i hpin hx1 hx2 hy1 hy2,
    fun ps c hp => forceBreak_pGet_pinned S ps c i hp,
    fun ps c t hp => satisfy_pGet_pinned S ps c t i hp⟩

/-- Witness for C4: one concrete simulation step on a pinned particle. -/
theorem pinned_invariant_witness :
    ((pGet wStateC4.particles 0).pinned = true) ∧
    (SETTINGS.borderPadding ≤ (pGet wStateC4.particles 0).positionX) ∧
    ((pGet wStateC4.particles 0).positionX ≤ 640 - SETTINGS.borderPadding) ∧
    (SETTINGS.borderPadding ≤ (pGet wStateC4.particles 0).positionY) ∧
    ((pGet wStateC4.particles 0).positionY ≤ 480 - SETTINGS.borderPadding) ∧
    ((pGet (foldSteps SETTINGS 640 480
        [{ dtMs := 1000 / 60, jit := fun _ => (0, 0), now := 0, nowTs := 0 }]
        wStateC4).particles 0).positionX = (pGet wStateC4.particles 0).positionX ∧
      (pGet (foldSteps SETTINGS 640 480
        [{ dtMs := 1000 / 60, jit := fun _ => (0, 0), now := 0, nowTs := 0 }]
        wStateC4).particles 0).positionY = (pGet wStateC4.particles 0).positionY ∧
      (pGet (foldSteps SETTINGS 640 480
        [{ dtMs := 1000 / 60, jit := fun _ => (0, 0), now := 0, nowTs := 0 }]
        wStateC4).particles 0).pinned = true) := by
  have hpin : (pGet wStateC4.particles 0).pinned = true := rfl
  have hx1 : SETTINGS.borderPadding ≤ (pGet wStateC4.particles 0).positionX := by
    norm_num [pGet, wStateC4, wParticleC4, defaultParticle, SETTINGS]
  have hx2 : (pGet wStateC4.particles 0).positionX ≤ 640 - SETTINGS.borderPadding := by
    norm_num [pGet, wStateC4, wParticleC4, defaultParticle, SETTINGS]
  have hy1 : SETTINGS.borderPadding ≤ (pGet wStateC4.particles 0).positionY := by
    norm_num [pGet, wStateC4, wParticleC4, defaultParticle, SETTINGS]
  have hy2 : (pGet wStateC4.particles 0).positionY ≤ 480 - SETTINGS.borderPadding := by
    norm_num [pGet, wStateC4, wParticleC4, defaultParticle, SETTINGS]
  exact ⟨hpin, hx1, hx2, hy1, hy2,
    (pinned_invariant SETTINGS 640 480
      [{ dtMs := 1000 / 60, jit := fun _ => (0, 0), now := 0, nowTs := 0 }]
      wStateC4 0 hpin hx1 hx2 hy1 hy2).1⟩

/-! The pulse force field. -/

/-- A tick with a pulse sitting exactly on the only free particle equals
the tick without the pulse: the epsilon-guarded direction is the zero
vector there, so no acceleration is added. -/
theorem stepC7_run_eq :
    (stepSimulation SETTINGS 640 480 (1000 / 60) (fun _ => (0, 0)) 0 0
      wStateC7).particles =
    (stepSimulation SETTINGS 640 480 (1000 / 60) (fun _ => (0, 0)) 0 0
      wStateC7noPulse).particles := by
  norm_num [stepSimulation, applyBaseForces, applyPulses, applyPulse,
    pulseAccel, integrateAll, verletStep, relaxLoop, runPass, clamp,
    addForce, jsHypot, SETTINGS, wStateC7, wStateC7noPulse, wParticleC7,
    wPulseC7, defaultParticle, List.filter]

/-- Counterexample to C7 as stated: a pulse injected exactly at the
location of a particle produces zero displacement relative to the
no-pulse run (the positions after one tick coincide), not a nonzero
outward motion. -/
theorem pulse_at_origin_counterexample :
    (wPulseC7.x = (pGet wStateC7.particles 0).positionX ∧
      wPulseC7.y = (pGet wStateC7.particles 0).positionY) ∧
    (stepSimulation SETTINGS 640 480 (1000 / 60) (fun _ => (0, 0)) 0 0
        wStateC7).particles =
      (stepSimulation SETTINGS 640 480 (1000 / 60) (fun _ => (0, 0)) 0 0
        wStateC7noPulse).particles :=
  ⟨⟨rfl, rfl⟩, stepC7_run_eq⟩

/-- Claim C7 as amended: each live pulse adds to every free particle an
acceleration of magnitude strength times decay times falloff times
r over (r plus epsilon), directed radially outward along the normalized
offset when r is positive, and exactly zero when the particle sits at the
pulse origin; hence a pulse injected exactly at the location of a
particle leaves that particle where the no-pulse run leaves it. -/
theorem pulse_force_field (S : Settings) (pu : Pulse) (now : ℝ)
    (p : Particle) (dx dy : ℝ)
    (hdx : dx = p.positionX - pu.x) (hdy : dy = p.positionY - pu.y)
    (hstr : 0 ≤ pu.strength) :
    jsHypot (pulseAccel S pu now p).1 (pulseAccel S pu now p).2
      = pu.strength
        * Real.exp (-(Real.log 2 / S.pulseHalfLifeMs) * (now - pu.createdAt))
        * Real.exp (-(dx * dx + dy * dy) / (2 * pu.sigma * pu.sigma))
        * (jsHypot dx dy / (jsHypot dx dy + 1e-6)) ∧
    (0 < jsHypot dx dy →
      (pulseAccel S pu now p).1
        = (pu.strength
            * Real.exp (-(Real.log 2 / S.pulseHalfLifeMs) * (now - pu.createdAt))
            * Real.exp (-(dx * dx + dy * dy) / (2 * pu.sigma * pu.sigma))
            * (jsHypot dx dy / (jsHypot dx dy + 1e-6))) * (dx / jsHypot dx dy) ∧
      (pulseAccel S pu now p).2
        = (pu.strength
            * Real.exp (-(Real.log 2 / S.pulseHalfLifeMs) * (now - pu.createdAt))
            * Real.exp (-(dx * dx + dy * dy) / (2 * pu.sigma * pu.sigma))
            * (jsHypot dx dy / (jsHypot dx dy + 1e-6))) * (dy / jsHypot dx dy)) ∧
    (dx = 0 ∧ dy = 0 →
      (pulseAccel S pu now p).1 = 0 ∧ (pulseAccel S pu now p).2 = 0) ∧
    (∀ (ps : List Particle) (i : ℕ), i < ps.length →
      (pGet ps i).pinned = false →
      pGet (applyPulse S pu now ps) i
        = addForce (pGet ps i) (pulseAccel S pu now (pGet ps i)).1
            (pulseAccel S pu now (pGet ps i)).2) ∧
    (stepSimulation SETTINGS 640 480 (1000 / 60) (fun _ => (0, 0)) 0 0
        wStateC7).particles =
      (stepSimulation SETTINGS 640 480 (1000 / 60) (fun _ => (0, 0)) 0 0
        wStateC7noPulse).particles := by
  have hax : (pulseAccel S pu now p).1
      = (dx / (jsHypot dx dy + 1e-6))
        * (pu.strength
          * Real.exp (-(Real.log 2 / S.pulseHalfLifeMs) * (now - pu.createdAt)))
        * Real.exp (-(dx * dx + dy * dy) / (2 * pu.sigma * pu.sigma)) := by
    rw [pulseAccel]
    dsimp only
    rw [← hdx, ← hdy]
    rfl
  have hay : (pulseAccel S pu now p).2
      = (dy / (jsHypot dx dy + 1e-6))
        * (pu.strength
          * Real.exp (-(Real.log 2 / S.pulseHalfLifeMs) * (now - pu.createdAt)))
        * Real.exp (-(dx * dx + dy * dy) / (2 * pu.sigma * pu.sigma)) := by
    rw [pulseAccel]
    dsimp only
    rw [← hdx, ← hdy]
    rfl
  have hr0 : (0 : ℝ) ≤ jsHypot dx dy := Real.sqrt_nonneg _
  have hrh : (0 : ℝ) < jsHypot dx dy + 1e-6 := by
    have : (0 : ℝ) < 1e-6 := by norm_num
    linarith
  have hBF : (0 : ℝ) ≤ pu.strength
      * Real.exp (-(Real.log 2 / S.pulseHalfLifeMs) * (now - pu.createdAt))
      * Real.exp (-(dx * dx + dy * dy) / (2 * pu.sigma * pu.sigma)) :=
    mul_nonneg (mul_nonneg hstr (Real.exp_pos _).le) (Real.exp_pos _).le
  have he : (0 : ℝ) ≤ (pu.strength
      * Real.exp (-(Real.log 2 / S.pulseHalfLifeMs) * (now - pu.createdAt))
      * Real.exp (-(dx * dx + dy * dy) / (2 * pu.sigma * pu.sigma)))
      / (jsHypot dx dy + 1e-6) := div_nonneg hBF hrh.le
  have hax2 : (pulseAccel S pu now p).1
      = ((pu.strength
          * Real.exp (-(Real.log 2 / S.pulseHalfLifeMs) * (now - pu.createdAt))
          * Real.exp (-(dx * dx + dy * dy) / (2 * pu.sigma * pu.sigma)))
          / (jsHypot dx dy + 1e-6)) * dx := by
    rw [hax]; ring
  have hay2 : (pulseAccel S pu now p).2
      = ((pu.strength
          * Real.exp (-(Real.log 2 / S.pulseHalfLifeMs) * (now - pu.createdAt))
          * Real.exp (-(dx * dx + dy * dy) / (2 * pu.sigma * pu.sigma)))
          / (jsHypot dx dy + 1e-6)) * dy := by
    rw [hay]; ring
  refine ⟨?_, ?_, ?_, ?_, stepC7_run_eq⟩
  · rw [hax2, hay2, jsHypot_mul_left _ _ _ he]
    field_simp
  · intro hrpos
    constructor
    · rw [hax2]
      field_simp
      ring
    · rw [hay2]
      field_simp
      ring
  · rintro ⟨hx0, hy0⟩
    constructor
    · rw [hax2, hx0, mul_zero]
    · rw [hay2, hy0, mul_zero]
  · intro ps i hi hfree
    rw [applyPulse, pGet_map _ _ _ hi, if_neg (by rw [hfree]; exact Bool.false_ne_true)]

/-- Witness for the amended C7 at a particle offset (3, 4) from the
pulse origin. -/
theorem pulse_force_field_witness :
    ((3 : ℝ) = (103 : ℝ) - wPulseC7.x) ∧
    ((4 : ℝ) = (104 : ℝ) - wPulseC7.y) ∧
    ((0 : ℝ) ≤ wPulseC7.strength) ∧
    jsHypot (pulseAccel SETTINGS wPulseC7 0
        { defaultParticle with positionX := 103, positionY := 104 }).1
      (pulseAccel SETTINGS wPulseC7 0
        { defaultParticle with positionX := 103, positionY := 104 }).2
      = wPulseC7.strength
        * Real.exp (-(Real.log 2 / SETTINGS.pulseHalfLifeMs) * (0 - wPulseC7.createdAt))
        * Real.exp (-((3 : ℝ) * 3 + 4 * 4) / (2 * wPulseC7.sigma * wPulseC7.sigma))
        * (jsHypot 3 4 / (jsHypot 3 4 + 1e-6)) := by
  have hdx : (3 : ℝ) = (103 : ℝ) - wPulseC7.x := by
    norm_num [wPulseC7]
  have hdy : (4 : ℝ) = (104 : ℝ) - wPulseC7.y := by
    norm_num [wPulseC7]
  have hstr : (0 : ℝ) ≤ wPulseC7.strength := by
    norm_num [wPulseC7, SETTINGS]
  refine ⟨hdx, hdy, hstr, ?_⟩
  exact (pulse_force_field SETTINGS wPulseC7 0
    { defaultParticle with positionX := 103, positionY := 104 } 3 4
    hdx hdy hstr).1

/-! Lattice construction with degenerate grid dimensions. -/

/-- Counterexample to C8 as stated: buildGrid with zero grid dimensions
does not fail with a configuration error; it returns normally with an
empty particle list and an empty constraint list (the construction loops
simply run zero iterations, and the source contains no validation or
throw). -/
theorem buildGrid_invalid_counterexample :
    buildGrid wSettingsC8 640 480 (fun _ => (0, 0)) = ([], []) := by
  rw [buildGrid]
  norm_num [wSettingsC8, SETTINGS]

/-- Claim C8 as amended: building the lattice with zero or negative grid
columns or rows does not fail fast; buildGrid performs no validation and
silently constructs an empty lattice (no particles, no constraints). -/
theorem buildGrid_degenerate (S : Settings) (w h : ℝ) (rng : ℕ → ℝ × ℝ)
    (hdeg : S.gridCols ≤ 0 ∨ S.gridRows ≤ 0) :
    buildGrid S w h rng = ([], []) := by
  rw [buildGrid]
  rcases hdeg with hc | hr
  · have hc0 : S.gridCols.toNat = 0 := Int.toNat_of_nonpos hc
    simp [hc0]
  · have hr0 : S.gridRows.toNat = 0 := Int.toNat_of_nonpos hr
    simp [hr0]

/-- Witness for the amended C8 at the concrete degenerate settings. -/
theorem buildGrid_degenerate_witness :
    (wSettingsC8.gridCols ≤ 0 ∨ wSettingsC8.gridRows ≤ 0) ∧
    buildGrid wSettingsC8 320 240 (fun _ => (0, 0)) = ([], []) :=
  ⟨Or.inl (by norm_num [wSettingsC8, SETTINGS]),
    buildGrid_degenerate wSettingsC8 320 240 (fun _ => (0, 0))
      (Or.inl (by norm_num [wSettingsC8, SETTINGS]))⟩

end PepperSim
